import Mathlib

/-!
Shallow embedding of `haptools/data/genotypes.py` (the genotype-tensor
assembly and validation engine) and proofs about its validation pipeline,
subsetting and record iteration.

The genotype tensor `data` is modelled as a nested list
`samples × variants × channels` of `Nat` values (numpy `uint8` entries, or
`bool` entries 0/1 once `check_biallelic` has narrowed the dtype; the
current dtype is tracked by the `dtypeBool` flag, and a `dtypeBool = true`
state is only meaningful when every entry is 0/1, just as a numpy bool
array can only hold 0/1).  Allele frequencies (`float64` in the source)
are modelled as exact rationals.
-/

set_option autoImplicit false

namespace Geno

/-- The name of the fourth column of the `variants` structured array:
`aaf` after construction, renamed to `maf` by `to_MAC`. -/
inductive FreqLabel where
  | aaf
  | maf
  deriving DecidableEq, Repr

/-- One row of the `variants` structured array.  The base `Genotypes` class
stores (id, chrom, pos, aaf); the `GenotypesRefAlt`/`GenotypesPLINK`
subclasses additionally store REF and ALT allele strings, carried here as
extra fields that the base-class operations never touch. -/
structure Variant where
  id : String
  chrom : String
  pos : Nat
  aaf : ℚ
  ref : String := ""
  alt : String := ""
  deriving DecidableEq, Repr

instance : Inhabited Variant := ⟨⟨"", "", 0, 0, "", ""⟩⟩

/-- The mutable state of one `Genotypes` instance. -/
structure GState where
  samples : List String
  variants : List Variant
  freqLabel : FreqLabel
  data : List (List (List Nat))
  dtypeBool : Bool
  prephased : Bool
  sampIdx : Option (List (String × Nat))
  varIdx : Option (List (String × Nat))
  deriving DecidableEq, Repr

/-- The state produced by `Genotypes.__init__`. -/
def initState : GState :=
  { samples := [], variants := [], freqLabel := .aaf, data := [],
    dtypeBool := false, prephased := false, sampIdx := none, varIdx := none }

/-- The `ValueError`s raised by the validation stages, each carrying the
pieces of the formatted message: variant id, chrom, pos and sample name. -/
inductive Err where
  | missing (id chrom : String) (pos : Nat) (samp : String)
  | multiallelic (id chrom : String) (pos : Nat) (samp : String)
  | unphased (id chrom : String) (pos : Nat) (samp : String)
  deriving DecidableEq, Repr

/-- The log messages (warnings / infos) the engine can emit. -/
inductive Diag where
  | unboundedGrowth
  | copyingVariants (n : Nat)
  | removingUnneeded (n : Nat)
  | failedToLoad
  | ignoringMissing (n : Nat)
  | allSamplesDiscarded
  | ignoringMultiallelic (n : Nat)
  | allVariantsDiscarded
  | alreadyBiallelic
  | alreadyPhased
  | alreadyMAC
  | fewerSamples (n : Nat)
  | fewerVariants (n : Nat)
  deriving DecidableEq, Repr

/-- The observable outcome of one mutating call: the instance state after
the call, the exception raised (if any), and the log messages emitted. -/
structure StageOut where
  st : GState
  err : Option Err
  diags : List Diag
  deriving DecidableEq, Repr

/-! ### Generic list helpers (index-aware maps, numpy-style primitives) -/

/-- Map with the element's index, starting from `n`. -/
def mapI {α β : Type} (f : Nat → α → β) : Nat → List α → List β
  | _, [] => []
  | n, a :: as => f n a :: mapI f (n + 1) as

/-- Indices (starting at `(i, j)`) of the `true` entries of one mask row. -/
def rowNonzero (i : Nat) : Nat → List Bool → List (Nat × Nat)
  | _, [] => []
  | j, true :: bs => (i, j) :: rowNonzero i (j + 1) bs
  | j, false :: bs => rowNonzero i (j + 1) bs

/-- Row-major indices of the `true` entries of a 2-D mask: the pair of
arrays returned by `np.nonzero`, zipped. -/
def nonzeroPairs : Nat → List (List Bool) → List (Nat × Nat)
  | _, [] => []
  | i, row :: rows => rowNonzero i 0 row ++ nonzeroPairs (i + 1) rows

/-- Delete the elements whose position is listed in `idxs` (`np.delete`;
duplicate positions delete once, exactly as numpy does). -/
def deleteIdxs {α : Type} (idxs : List Nat) : Nat → List α → List α
  | _, [] => []
  | n, a :: as =>
    if idxs.contains n then deleteIdxs idxs (n + 1) as
    else a :: deleteIdxs idxs (n + 1) as

/-- Bitwise complement `~v` of one tensor entry: logical not on a numpy
bool array, `255 - v` on a uint8 array. -/
def npNot (isBool : Bool) (v : Nat) : Nat :=
  if isBool then (if v = 0 then 1 else 0) else 255 - v

/-- Narrow one entry with `astype(np.bool_)`: nonzero becomes 1. -/
def toBool01 (v : Nat) : Nat := if v = 0 then 0 else 1

/-! ### The validation pipeline (`check_missing`, `check_biallelic`,
`check_phase`, `to_MAC`) -/

/-- The shape accessors the source reads from `self.data.shape`.  For a
nested-list tensor, dimension 0 is the list length; dimensions 1 and 2 are
read from the first row/cell (numpy keeps them even when an outer axis is
empty; in that degenerate corner we fall back to the aligned metadata). -/
def dim0 (s : GState) : Nat := s.data.length

/-- Dimension 1 (the variant axis) of the tensor. -/
def dim1 (s : GState) : Nat :=
  match s.data with
  | row :: _ => row.length
  | [] => s.variants.length

/-- Dimension 2 (the channel axis) of the tensor. -/
def dim2 (s : GState) : Nat := ((s.data.headD []).headD []).length

/-- The cell (list of channel values) of sample `i`, variant `j`. -/
def cellAt (s : GState) (i j : Nat) : List Nat := ((s.data.getD i []).getD j [])

/-- The mask `np.any(self.data[:, :, :2] == np.iinfo(np.uint8).max, axis=2)`
of `check_missing`. -/
def missingMask (s : GState) : List (List Bool) :=
  s.data.map (fun row => row.map (fun c => decide (c.getD 0 0 = 255 ∨ c.getD 1 0 = 255)))

/-- Embedding of `Genotypes.check_missing`. -/
def checkMissing (s : GState) (discardAlso : Bool) : StageOut :=
  let pairs := nonzeroPairs 0 (missingMask s)
  match pairs with
  | [] =>
    { st := s, err := none,
      diags := if discardAlso ∧ s.data.length = 0 then [.allSamplesDiscarded] else [] }
  | (i0, j0) :: _ =>
    if discardAlso then
      let sampIdxs := pairs.map Prod.fst
      let s1 : GState :=
        { s with data := deleteIdxs sampIdxs 0 s.data,
                 samples := deleteIdxs sampIdxs 0 s.samples,
                 sampIdx := none }
      { st := s1, err := none,
        diags := [.ignoringMissing sampIdxs.length] ++
          (if s1.data.length = 0 then [.allSamplesDiscarded] else []) }
    else
      let v := s.variants.getD j0 default
      { st := s, err := some (.missing v.id v.chrom v.pos (s.samples.getD i0 "")),
        diags := [] }

/-- The mask `np.any(self.data[:, :, :2] > 1, axis=2)` of `check_biallelic`. -/
def multiallelicMask (s : GState) : List (List Bool) :=
  s.data.map (fun row => row.map (fun c => decide (c.getD 0 0 > 1 ∨ c.getD 1 0 > 1)))

/-- Narrow the whole tensor with `astype(np.bool_)`. -/
def astypeBool (s : GState) : GState :=
  { s with data := s.data.map (fun row => row.map (fun c => c.map toBool01)),
           dtypeBool := true }

/-- Embedding of `Genotypes.check_biallelic`. -/
def checkBiallelic (s : GState) (discardAlso : Bool) : StageOut :=
  if s.dtypeBool then { st := s, err := none, diags := [.alreadyBiallelic] }
  else
    let pairs := nonzeroPairs 0 (multiallelicMask s)
    match pairs with
    | [] =>
      { st := astypeBool s, err := none,
        diags := if discardAlso ∧ dim1 s = 0 then [.allVariantsDiscarded] else [] }
    | (i0, j0) :: _ =>
      if discardAlso then
        let varIdxs := pairs.map Prod.snd
        let s1 : GState :=
          { s with data := s.data.map (fun row => deleteIdxs varIdxs 0 row),
                   variants := deleteIdxs varIdxs 0 s.variants,
                   varIdx := none }
        { st := astypeBool s1, err := none,
          diags := [.ignoringMultiallelic varIdxs.length] ++
            (if dim1 s1 = 0 then [.allVariantsDiscarded] else []) }
      else
        let v := s.variants.getD j0 default
        { st := s, err := some (.multiallelic v.id v.chrom v.pos (s.samples.getD i0 "")),
          diags := [] }

/-- The per-cell computation
`(self.data[:, :, 0] ^ self.data[:, :, 1]) & (~self.data[:, :, 2])` of
`check_phase` (xor and `&` coincide with the numpy bool operators on 0/1
entries; `~` depends on the dtype). -/
def unphasedVal (isBool : Bool) (c : List Nat) : Nat :=
  ((c.getD 0 0) ^^^ (c.getD 1 0)) &&& npNot isBool (c.getD 2 0)

/-- The unphased-heterozygote mask of `check_phase`. -/
def unphasedMask (s : GState) : List (List Bool) :=
  s.data.map (fun row => row.map (fun c => decide (unphasedVal s.dtypeBool c ≠ 0)))

/-- Embedding of `Genotypes.check_phase`. -/
def checkPhase (s : GState) : StageOut :=
  if s.prephased ∨ dim2 s < 3 then { st := s, err := none, diags := [.alreadyPhased] }
  else
    match nonzeroPairs 0 (unphasedMask s) with
    | [] =>
      { st := { s with data := s.data.map (fun row => row.map (fun c => c.take 2)) },
        err := none, diags := [] }
    | (i0, j0) :: _ =>
      let v := s.variants.getD j0 default
      { st := s, err := some (.unphased v.id v.chrom v.pos (s.samples.getD i0 "")),
        diags := [] }

/-- Embedding of `Genotypes.to_MAC`. -/
def toMAC (s : GState) : StageOut :=
  if s.freqLabel = .maf then { st := s, err := none, diags := [.alreadyMAC] }
  else
    let needConv : List Bool := s.variants.map (fun v => decide (v.aaf > 1 / 2))
    let data1 := s.data.map (fun row =>
      mapI (fun j c =>
        if needConv.getD j false then mapI (fun k v => if k < 2 then npNot s.dtypeBool v else v) 0 c
        else c) 0 row)
    let variants1 := s.variants.map (fun v =>
      if v.aaf > 1 / 2 then { v with aaf := 1 - v.aaf } else v)
    { st := { s with data := data1, variants := variants1, freqLabel := .maf },
      err := none, diags := [] }

/-! ### Index manager and subset engine -/

/-- Model of `dict(zip(keys, range(len(keys))))`: the association list of
(key, position) pairs, looked up with last-binding-wins semantics. -/
def buildIdxList (keys : List String) : List (String × Nat) :=
  mapI (fun i k => (k, i)) 0 keys

/-- Python dict lookup over the association list (a later duplicate key
overwrites an earlier one, so the last matching entry wins). -/
def dictGet (d : List (String × Nat)) (k : String) : Option Nat :=
  d.foldl (fun acc kv => if kv.1 = k then some kv.2 else acc) none

/-- Python `k in dict`. -/
def dictHas (d : List (String × Nat)) (k : String) : Bool :=
  (dictGet d k).isSome

/-- The sample dictionary `self.index` resolves: the cached one if present,
else freshly built from the sample list. -/
def resolveSampIdx (s : GState) : List (String × Nat) :=
  match s.sampIdx with
  | some d => d
  | none => buildIdxList s.samples

/-- The variant dictionary `self.index` resolves, keyed by variant id. -/
def resolveVarIdx (s : GState) : List (String × Nat) :=
  match s.varIdx with
  | some d => d
  | none => buildIdxList (s.variants.map Variant.id)

/-- The `if samples is not None` block of `subset`: filter the requested
names through `self._samp_idx`, warn about the shortfall, gather the rows.
`s` plays the role of `self` (where the index lives), `gts0` the instance
being written to. -/
def subsetSamples (s gts0 : GState) (sl : List String) (inplace : Bool) :
    GState × List Diag :=
  let sDict := resolveSampIdx s
  let kept := sl.filter (fun x => dictHas sDict x)
  let ds : List Diag :=
    if kept.length < sl.length then [.fewerSamples (sl.length - kept.length)] else []
  let sidx := kept.map (fun x => (dictGet sDict x).getD 0)
  ({ gts0 with samples := kept,
               data := sidx.map (fun i => gts0.data.getD i []),
               sampIdx := if inplace then none else gts0.sampIdx }, ds)

/-- The `if variants is not None` block of `subset`: look the requested
ids up in `self._var_idx`, warn about the shortfall, gather the columns of
`gts1`'s (possibly already sample-subsetted) tensor and the rows of
`self`'s variant table. -/
def subsetVariants (s gts1 : GState) (vl : List String) (inplace : Bool) :
    GState × List Diag :=
  let vDict := resolveVarIdx s
  let vidx := vl.filterMap (fun x => dictGet vDict x)
  let ds : List Diag :=
    if vidx.length < vl.length then [.fewerVariants (vl.length - vidx.length)] else []
  ({ gts1 with variants := vidx.map (fun j => s.variants.getD j default),
               data := gts1.data.map (fun row => vidx.map (fun j => row.getD j [])),
               varIdx := if inplace then none else gts1.varIdx }, ds)

/-- Embedding of `Genotypes.subset`.  The returned state is the instance
the caller ends up with (`self` when `inplace`, else the freshly
constructed clone, whose constructor resets `_prephased` and both index
caches).  The only possible exception in the source is a dict `KeyError`,
which the membership filters rule out, so the embedding is total: absent
identifiers can only produce the count diagnostics. -/
def subset (s : GState) (samples? : Option (List String))
    (variants? : Option (List String)) (inplace : Bool) : GState × List Diag :=
  let gts0 : GState :=
    if inplace then s
    else { s with prephased := false, sampIdx := none, varIdx := none }
  -- self.index(samples=(samples is not None), variants=(variants is not None))
  let (gts1, diags1) :=
    match samples? with
    | none => (gts0, ([] : List Diag))
    | some sl => subsetSamples s gts0 sl inplace
  match variants? with
  | none => (gts1, diags1)
  | some vl =>
    let (gts2, ds) := subsetVariants s gts1 vl inplace
    (gts2, diags1 ++ ds)

/-! ### Record iteration and `read` (VCF path) -/

/-- One decoded VCF record: the row of variant metadata `_variant_arr`
builds from it, and the per-sample genotype matrix
(`np.array(variant.genotypes)`, one row of up to three entries per
sample).  The record's ID (`variant.ID`) is the id stored in the
metadata row. -/
structure VRec where
  meta : Variant
  data : List (List Nat)
  deriving DecidableEq, Repr

instance : Inhabited VRec := ⟨⟨default, []⟩⟩

/-- The channel slice `data[:, :(2 + (not self._prephased))]` applied to
each emitted record. -/
def sliceChannels (prephased : Bool) (r : VRec) : VRec :=
  { r with data := r.data.map (fun row => row.take (2 + (if prephased then 0 else 1))) }

/-- The loop body of `Genotypes._iterate` when a variant-id set is given:
skip records whose ID is not in the set, break as soon as such a record is
seen after `num_seen` has reached the size of the set, and yield (with the
channel slice) otherwise.  Returns the emitted records. -/
def iterGo (prephased : Bool) (S : List String) : List VRec → Nat → List VRec
  | [], _ => []
  | r :: rs, seen =>
    if r.meta.id ∈ S then sliceChannels prephased r :: iterGo prephased S rs (seen + 1)
    else if seen ≥ S.length then []
    else iterGo prephased S rs seen

/-- Embedding of `Genotypes._iterate` over an already-decoded record
stream (region filtering is delegated to the underlying `cyvcf2` reader
and is not part of this loop). -/
def iterateVCF (prephased : Bool) (S? : Option (List String)) (recs : List VRec) :
    List VRec :=
  match S? with
  | none => recs.map (sliceChannels prephased)
  | some S => iterGo prephased S recs 0

/-- The records of the source that match the variant-identifier filter
(all of them when no filter is given): the records the spec says a
bounded read should draw from, in source order. -/
def matchingRecs (S? : Option (List String)) (recs : List VRec) : List VRec :=
  match S? with
  | none => recs
  | some S => recs.filter (fun r => decide (r.meta.id ∈ S))

/-- The preallocated fill loop of bounded-mode `read`:
`if num_seen >= max_variants: break` precedes each store. -/
def fillLoop (maxVariants : Nat) : List VRec → Nat → List VRec
  | [], _ => []
  | r :: rs, seen => if seen ≥ maxVariants then [] else r :: fillLoop maxVariants rs (seen + 1)

/-- The final `self.data.transpose((1, 0, 2))` of `read`: the stored
arrays are variant-major, the result is sample-major.  The length of the
sample axis is read off the first stored record, as numpy reads it from
the array's (uniform) shape. -/
def transpose102 (d : List (List (List Nat))) : List (List (List Nat)) :=
  match d with
  | [] => []
  | row :: _ => (List.range row.length).map (fun i => d.map (fun vrow => vrow.getD i []))

/-- Embedding of `Genotypes.read`.  `vcfSamples` is the sample list the
`cyvcf2.VCF` handle reports after sample subsetting (installed on the
instance by `__iter__` before iteration starts). -/
def readVCF (s : GState) (vcfSamples : List String) (S? : Option (List String))
    (maxVariants? : Option Nat) (recs : List VRec) : GState × List Diag :=
  let s1 : GState := { s with samples := vcfSamples }
  let records := iterateVCF s1.prephased S? recs
  let maxV? : Option Nat :=
    match S? with
    | some S => some S.length
    | none => maxVariants?
  let (s2, diags) :=
    match maxV? with
    | none =>
      ({ s1 with variants := records.map VRec.meta,
                 data := records.map VRec.data,
                 dtypeBool := false },
       [Diag.unboundedGrowth, Diag.copyingVariants records.length])
    | some m =>
      let filled := fillLoop m records 0
      ({ s1 with variants := filled.map VRec.meta,
                 data := filled.map VRec.data,
                 dtypeBool := false },
       if m > filled.length then [Diag.removingUnneeded (m - filled.length)] else [])
  let diags :=
    diags ++ (if s2.data.length = 0 ∨ vcfSamples.length = 0 then [Diag.failedToLoad] else [])
  ({ s2 with data := transpose102 s2.data }, diags)

/-- Embedding of `Genotypes.load`: construct a fresh instance, `read`, then
`check_missing()`, `check_biallelic()` and `check_phase()` with default
arguments.  The `to_MAC()` call is commented out in the source (line 106),
so the pipeline stops after the phase check, exactly as the code does. -/
def load (vcfSamples : List String) (S? : Option (List String)) (recs : List VRec) :
    StageOut :=
  let (s1, d1) := readVCF initState vcfSamples S? none recs
  let o2 := checkMissing s1 false
  match o2.err with
  | some e => { st := o2.st, err := some e, diags := d1 ++ o2.diags }
  | none =>
    let o3 := checkBiallelic o2.st false
    match o3.err with
    | some e => { st := o3.st, err := some e, diags := d1 ++ o2.diags ++ o3.diags }
    | none =>
      let o4 := checkPhase o3.st
      { st := o4.st, err := o4.err, diags := d1 ++ o2.diags ++ o3.diags ++ o4.diags }

/-! ### Record iteration over a PVAR file (`GenotypesPLINK`) -/

/-- One parsed line of a PVAR file body (the `cid` header indirection of
the source resolved into named fields). -/
structure PLine where
  chrom : String
  pos : Nat
  id : String
  ref : String := ""
  alt : String := ""
  deriving DecidableEq, Repr

/-- A parsed region string `contig` or `contig:start-end` (the `re.split`
result of `_iterate_variants`); a missing end bound means infinity. -/
structure Region where
  chrom : String
  start : Nat := 0
  stop : Option Nat := none
  deriving DecidableEq, Repr

/-- Embedding of `GenotypesPLINK._check_region`. -/
def checkRegion (pos : String × Nat) (r : Region) : Bool :=
  (pos.1 == r.chrom) && (decide (r.start ≤ pos.2)) &&
    (match r.stop with | none => true | some e => decide (pos.2 ≤ e))

/-- Embedding of `GenotypesPLINK._variant_arr`: the AAF column of a
PVAR-derived variant row is always set to the constant 0.5 (the source
marks this with a TODO). -/
def plinkVariantArr (rec : PLine) : Variant :=
  { id := rec.id, chrom := rec.chrom, pos := rec.pos, aaf := 1 / 2,
    ref := rec.ref, alt := rec.alt }

/-- The loop of `GenotypesPLINK._iterate_variants`, faithfully including
its bug: `num_seen` is initialized to 0 and never incremented, so the
early-exit guard `num_seen >= len(variants)` can fire only for an empty
set.  Returns the emitted `(ct, variant_arr)` pairs and the number of
lines consumed from the file. -/
def iterVarsGo (S? : Option (List String)) (region? : Option Region) :
    List PLine → Nat → Nat → List (Nat × Variant) × Nat
  | [], _, _ => ([], 0)
  | L :: ls, ct, numSeen =>
    if (match region? with | some r => !checkRegion (L.chrom, L.pos) r | none => false) then
      let (es, c) := iterVarsGo S? region? ls (ct + 1) numSeen
      (es, c + 1)
    else
      match S? with
      | some S =>
        if L.id ∈ S then
          -- yield; note the source never runs `num_seen += 1` here
          let (es, c) := iterVarsGo S? region? ls (ct + 1) numSeen
          ((ct, plinkVariantArr L) :: es, c + 1)
        else if numSeen ≥ S.length then ([], 1)
        else
          let (es, c) := iterVarsGo S? region? ls (ct + 1) numSeen
          (es, c + 1)
      | none =>
        let (es, c) := iterVarsGo S? region? ls (ct + 1) numSeen
        ((ct, plinkVariantArr L) :: es, c + 1)

/-- Embedding of `GenotypesPLINK._iterate_variants` over the parsed lines
of the PVAR body. -/
def iterateVariantsPVAR (S? : Option (List String)) (region? : Option Region)
    (lines : List PLine) : List (Nat × Variant) × Nat :=
  iterVarsGo S? region? lines 0 0

/-! ### Invariants -/

/-- Internal consistency: the tensor's sample axis matches the sample
list and every row's variant axis matches the variant table. -/
def wf (s : GState) : Prop :=
  s.data.length = s.samples.length ∧ ∀ row ∈ s.data, row.length = s.variants.length

/-- Every entry of the tensor is a 0/1 presence flag (what a numpy bool
array necessarily holds). -/
def binaryData (s : GState) : Prop :=
  ∀ row ∈ s.data, ∀ c ∈ row, ∀ v ∈ c, v ≤ 1

/-- The cached index dictionaries, when present, are the ones `index()`
would build for the current axes (no stale caches). -/
def cachesOk (s : GState) : Prop :=
  (s.sampIdx = none ∨ s.sampIdx = some (buildIdxList s.samples)) ∧
  (s.varIdx = none ∨ s.varIdx = some (buildIdxList (s.variants.map Variant.id)))

/-- Row-major (sample-major) lexicographic order on (sample, variant)
index pairs: the order in which `np.nonzero` reports offending entries. -/
def lexLE (p q : Nat × Nat) : Prop :=
  p.1 < q.1 ∨ (p.1 = q.1 ∧ p.2 ≤ q.2)

/-- Keep the elements of `l` whose flag is `false` (specification-side
view of deleting the flagged positions). -/
def dropFlagged {α : Type} (flags : List Bool) (l : List α) : List α :=
  (flags.zip l).filterMap (fun p => if p.1 then none else some p.2)

/-- Per-row summary of a 2-D mask: does the row contain a `true`? -/
def rowFlags (mask : List (List Bool)) : List Bool :=
  mask.map (fun row => row.any (fun b => b))

/-- Genotype (i, j) carries the missing sentinel (255, the maximum uint8
value) in one of its first two channels. -/
def missingAt (s : GState) (i j : Nat) : Prop :=
  (cellAt s i j).getD 0 0 = 255 ∨ (cellAt s i j).getD 1 0 = 255

/-- Genotype (i, j) is heterozygous (allele channels differ) and its phase
channel is false. -/
def hetUnphasedAt (s : GState) (i j : Nat) : Prop :=
  (cellAt s i j).getD 0 0 ≠ (cellAt s i j).getD 1 0 ∧ (cellAt s i j).getD 2 0 = 0

/-- The flip `~` that `to_MAC` applies to the two allele channels of a
converted variant (on the post-pipeline boolean tensor: presence becomes
absence and vice versa). -/
def flipAlleles (c : List Nat) : List Nat :=
  mapI (fun k v => if k < 2 then npNot true v else v) 0 c

/-! ### Concrete example states used by the witnesses -/

/-- A one-sample, two-variant aaf-labeled boolean state: variant v1 has
frequency 9/10 (major alternate allele), v2 has 1/10. -/
def c4State : GState :=
  { samples := ["s1"],
    variants := [{ id := "v1", chrom := "chr1", pos := 100, aaf := 9 / 10 },
                 { id := "v2", chrom := "chr1", pos := 200, aaf := 1 / 10 }],
    freqLabel := .aaf, data := [[[1, 1], [1, 0]]], dtypeBool := true,
    prephased := false, sampIdx := none, varIdx := none }

/-- A one-sample, one-variant uint8 state (3 channels, all calls clean)
about to go through `check_biallelic`. -/
def c3State : GState :=
  { samples := ["s1"], variants := [{ id := "v1", chrom := "chr1", pos := 100, aaf := 0 }],
    freqLabel := .aaf, data := [[[1, 0, 1]]], dtypeBool := false,
    prephased := false, sampIdx := none, varIdx := none }

/-- A one-sample, one-variant 3-channel boolean state whose single call is
heterozygous and unphased. -/
def c2State : GState :=
  { samples := ["s1"], variants := [{ id := "v1", chrom := "chr1", pos := 100, aaf := 0 }],
    freqLabel := .aaf, data := [[[1, 0, 0]]], dtypeBool := true,
    prephased := false, sampIdx := none, varIdx := none }

/-- A pre-phased variant of `c2State`. -/
def c2StateG : GState := { c2State with prephased := true }

/-- A two-sample, one-variant uint8 state whose first sample carries the
missing sentinel. -/
def c5State : GState :=
  { samples := ["s1", "s2"],
    variants := [{ id := "v1", chrom := "chr1", pos := 100, aaf := 0 }],
    freqLabel := .aaf, data := [[[255, 0, 1]], [[1, 1, 1]]], dtypeBool := false,
    prephased := false, sampIdx := none, varIdx := none }

/-- A three-sample, two-variant boolean state for subsetting. -/
def c9State : GState :=
  { samples := ["a", "b", "c"],
    variants := [{ id := "v1", chrom := "chr1", pos := 100, aaf := 0 },
                 { id := "v2", chrom := "chr1", pos := 200, aaf := 0 }],
    freqLabel := .aaf,
    data := [[[0, 0], [0, 1]], [[1, 0], [1, 1]], [[0, 1], [1, 0]]],
    dtypeBool := true, prephased := false, sampIdx := none, varIdx := none }

/-- A three-record decoded VCF stream over one sample (ids v1, v2, v3). -/
def c8Recs : List VRec :=
  [{ meta := { id := "v1", chrom := "chr1", pos := 100, aaf := 0 }, data := [[0, 1, 1]] },
   { meta := { id := "v2", chrom := "chr1", pos := 200, aaf := 0 }, data := [[1, 0, 1]] },
   { meta := { id := "v3", chrom := "chr1", pos := 300, aaf := 0 }, data := [[1, 1, 1]] }]

/-- A clean one-sample, one-variant decoded VCF stream whose variant has
alternate-allele frequency 9/10 and a homozygous-alternate phased call. -/
def c1Recs : List VRec :=
  [{ meta := { id := "v1", chrom := "chr1", pos := 100, aaf := 9 / 10 },
     data := [[1, 1, 1]] }]

/-- A three-line PVAR body with ids v1, v2, v3. -/
def c7Lines : List PLine :=
  [{ chrom := "chr1", pos := 1, id := "v1" },
   { chrom := "chr1", pos := 2, id := "v2" },
   { chrom := "chr1", pos := 3, id := "v3" }]

/-- A concrete PVAR line. -/
def c10Line : PLine := { chrom := "chr1", pos := 5, id := "rs1", ref := "A", alt := "G" }

/-- A one-sample, one-variant state whose single variant row came from the
PVAR reader (frequency one half). -/
def c10State : GState :=
  { samples := ["s1"], variants := [plinkVariantArr c10Line],
    freqLabel := .aaf, data := [[[1, 0]]], dtypeBool := true,
    prephased := false, sampIdx := none, varIdx := none }

/-! ### Helper lemmas -/

theorem mapI_length {α β : Type} (f : Nat → α → β) :
    ∀ (n : Nat) (l : List α), (mapI f n l).length = l.length := by
  intro n l
  induction l generalizing n with
  | nil => rfl
  | cons a as ih => simp [mapI, ih]

theorem mapI_get? {α β : Type} (f : Nat → α → β) :
    ∀ (n : Nat) (l : List α) (i : Nat),
      (mapI f n l).get? i = (l.get? i).map (f (n + i)) := by
  intro n l
  induction l generalizing n with
  | nil => intro i; rfl
  | cons a as ih =>
    intro i
    cases i with
    | zero => rfl
    | succ i =>
      simp only [mapI, List.get?_cons_succ, ih (n + 1) i]
      ring_nf

theorem deleteIdxs_length_eq {α β : Type} (idxs : List Nat) :
    ∀ (n : Nat) (l₁ : List α) (l₂ : List β), l₁.length = l₂.length →
      (deleteIdxs idxs n l₁).length = (deleteIdxs idxs n l₂).length := by
  intro n l₁
  induction l₁ generalizing n with
  | nil =>
    intro l₂ h
    cases l₂ with
    | nil => rfl
    | cons b bs => simp at h
  | cons a as ih =>
    intro l₂ h
    cases l₂ with
    | nil => simp at h
    | cons b bs =>
      simp only [List.length_cons, Nat.succ.injEq] at h
      simp only [deleteIdxs]
      by_cases hc : idxs.contains n
      · simp only [hc, if_true]; exact ih (n + 1) bs h
      · simp only [hc, if_false, List.length_cons]
        exact congrArg Nat.succ (ih (n + 1) bs h)

theorem mem_rowNonzero {i : Nat} :
    ∀ (j : Nat) (row : List Bool) (p : Nat × Nat),
      p ∈ rowNonzero i j row ↔
        p.1 = i ∧ ∃ k, k < row.length ∧ p.2 = j + k ∧ row.getD k false = true := by
  intro j row
  induction row generalizing j with
  | nil => intro p; simp [rowNonzero]
  | cons b bs ih =>
    intro p
    cases b with
    | false =>
      rw [rowNonzero, ih (j + 1)]
      constructor
      · rintro ⟨h1, k, hk, hpk, hget⟩
        refine ⟨h1, k + 1, ?_, ?_, ?_⟩
        · simpa using Nat.succ_lt_succ hk
        · omega
        · simpa using hget
      · rintro ⟨h1, k, hk, hpk, hget⟩
        cases k with
        | zero => simp [List.getD] at hget
        | succ k =>
          refine ⟨h1, k, ?_, ?_, ?_⟩
          · simpa using Nat.lt_of_succ_lt_succ (by simpa using hk)
          · omega
          · simpa using hget
    | true =>
      rw [rowNonzero]
      simp only [List.mem_cons, ih (j + 1)]
      constructor
      · rintro (rfl | ⟨h1, k, hk, hpk, hget⟩)
        · exact ⟨rfl, 0, by simp, by simp, rfl⟩
        · refine ⟨h1, k + 1, ?_, ?_, ?_⟩
          · simpa using Nat.succ_lt_succ hk
          · omega
          · simpa using hget
      · rintro ⟨h1, k, hk, hpk, hget⟩
        cases k with
        | zero =>
          left
          obtain ⟨p1, p2⟩ := p
          simp only at h1 hpk
          simp [h1, hpk]
        | succ k =>
          right
          refine ⟨h1, k, ?_, ?_, ?_⟩
          · simpa using Nat.lt_of_succ_lt_succ (by simpa using hk)
          · omega
          · simpa using hget

theorem mem_nonzeroPairs :
    ∀ (n : Nat) (mask : List (List Bool)) (p : Nat × Nat),
      p ∈ nonzeroPairs n mask ↔
        ∃ k, k < mask.length ∧ p.1 = n + k ∧
          ∃ m, m < (mask.getD k []).length ∧ p.2 = m ∧
            (mask.getD k []).getD m false = true := by
  intro n mask
  induction mask generalizing n with
  | nil => intro p; simp [nonzeroPairs]
  | cons row rows ih =>
    intro p
    simp only [nonzeroPairs, List.mem_append, mem_rowNonzero 0 row, ih (n + 1)]
    constructor
    · rintro (⟨h1, k, hk, hpk, hget⟩ | ⟨k, hk, h1, m, hm, hpm, hget⟩)
      · exact ⟨0, by simp, by omega, k, by simpa using hk, by omega, by simpa using hget⟩
      · exact ⟨k + 1, by simpa using hk, by omega, m, by simpa using hm, hpm, by simpa using hget⟩
    · rintro ⟨k, hk, h1, m, hm, hpm, hget⟩
      cases k with
      | zero =>
        left
        exact ⟨by omega, m, by simpa using hm, by omega, by simpa using hget⟩
      | succ k =>
        right
        exact ⟨k, by simpa using hk, by omega, m, by simpa using hm, hpm, by simpa using hget⟩

/-- A 2-D mask yields no nonzero pairs exactly when every in-range entry
is false. -/
theorem nonzeroPairs_eq_nil_iff (mask : List (List Bool)) :
    nonzeroPairs 0 mask = [] ↔
      ∀ i, i < mask.length → ∀ j, j < (mask.getD i []).length →
        (mask.getD i []).getD j false = false := by
  rw [List.eq_nil_iff_forall_not_mem]
  constructor
  · intro h i hi j hj
    by_contra hne
    exact h (i, j) ((mem_nonzeroPairs 0 mask (i, j)).mpr
      ⟨i, hi, by omega, j, hj, rfl, by simpa using hne⟩)
  · intro h p hp
    obtain ⟨k, hk, h1, m, hm, hpm, hget⟩ := (mem_nonzeroPairs 0 mask p).mp hp
    rw [h k hk m hm] at hget
    exact Bool.false_ne_true hget

theorem rowNonzero_head_snd_min {i : Nat} :
    ∀ (j : Nat) (row : List Bool) (q : Nat × Nat) (t : List (Nat × Nat)),
      rowNonzero i j row = q :: t → ∀ p ∈ rowNonzero i j row, q.2 ≤ p.2 := by
  intro j row
  induction row generalizing j with
  | nil => intro q t h; simp [rowNonzero] at h
  | cons b bs ih =>
    intro q t h p hp
    cases b with
    | false =>
      rw [rowNonzero] at h hp
      exact ih (j + 1) q t h p hp
    | true =>
      rw [rowNonzero] at h hp
      obtain rfl : q = (i, j) := by
        have := List.head_eq_of_cons_eq h.symm
        simp [this]
      rcases List.mem_cons.mp hp with rfl | hp'
      · exact le_refl _
      · have := ((mem_rowNonzero (j + 1) bs p).mp hp').2
        obtain ⟨k, _, hpk, _⟩ := this
        omega

theorem nonzeroPairs_head_min :
    ∀ (n : Nat) (mask : List (List Bool)) (q : Nat × Nat) (t : List (Nat × Nat)),
      nonzeroPairs n mask = q :: t → ∀ p ∈ nonzeroPairs n mask, lexLE q p := by
  intro n mask
  induction mask generalizing n with
  | nil => intro q t h; simp [nonzeroPairs] at h
  | cons row rows ih =>
    intro q t h p hp
    rw [nonzeroPairs] at h hp
    cases hr : rowNonzero n 0 row with
    | nil =>
      rw [hr, List.nil_append] at h hp
      exact ih (n + 1) q t h p hp
    | cons q' t' =>
      rw [hr] at h hp
      have hqq : q' = q := by
        have hcons : q' :: (t' ++ nonzeroPairs (n + 1) rows) = q :: t := by
          simpa using h
        simpa using (List.head_eq_of_cons_eq hcons)
      subst hqq
      have hq'i : q'.1 = n := by
        have := (mem_rowNonzero 0 row q').mp (hr ▸ List.mem_cons_self q' t')
        exact this.1
      rcases List.mem_append.mp hp with hrow | hrows
      · have hfst : p.1 = n := ((mem_rowNonzero 0 row p).mp (hr ▸ hrow)).1
        right
        exact ⟨by omega, rowNonzero_head_snd_min 0 row q' t' hr p (hr ▸ hrow)⟩
      · have := ((mem_nonzeroPairs (n + 1) rows p).mp hrows)
        obtain ⟨k, _, h1, _⟩ := this
        left
        omega

/-! #### Dictionary (`dict(zip(keys, range(len(keys))))`) lemmas -/

theorem mapI_append {α β : Type} (f : Nat → α → β) :
    ∀ (n : Nat) (l₁ l₂ : List α),
      mapI f n (l₁ ++ l₂) = mapI f n l₁ ++ mapI f (n + l₁.length) l₂ := by
  intro n l₁
  induction l₁ generalizing n with
  | nil => intro l₂; simp [mapI]
  | cons a as ih =>
    intro l₂
    have step : mapI f n ((a :: as) ++ l₂) = f n a :: mapI f (n + 1) (as ++ l₂) := rfl
    rw [step, ih (n + 1)]
    have harith : n + 1 + as.length = n + (a :: as).length := by simp; omega
    rw [harith]
    rfl

theorem buildIdxList_concat (l : List String) (x : String) :
    buildIdxList (l ++ [x]) = buildIdxList l ++ [(x, l.length)] := by
  simp [buildIdxList, mapI_append, mapI]

theorem dictGet_concat (d : List (String × Nat)) (kv : String × Nat) (k : String) :
    dictGet (d ++ [kv]) k = if kv.1 = k then some kv.2 else dictGet d k := by
  simp [dictGet, List.foldl_append]

theorem dictHas_buildIdx (l : List String) (k : String) :
    dictHas (buildIdxList l) k = true ↔ k ∈ l := by
  induction l using List.reverseRecOn with
  | nil => simp [dictHas, dictGet, buildIdxList, mapI]
  | append_singleton l x ih =>
    rw [buildIdxList_concat]
    by_cases hx : x = k
    · simp [dictHas, dictGet_concat, hx]
    · simp only [dictHas, dictGet_concat, if_neg hx, List.mem_append, List.mem_singleton]
      rw [dictHas] at ih
      rw [ih]
      constructor
      · exact Or.inl
      · rintro (h | rfl)
        · exact h
        · exact absurd rfl hx

theorem dictGet_buildIdx_spec (l : List String) (k : String) (j : Nat) :
    dictGet (buildIdxList l) k = some j → j < l.length ∧ l.getD j "" = k := by
  induction l using List.reverseRecOn with
  | nil => simp [dictGet, buildIdxList, mapI]
  | append_singleton l x ih =>
    rw [buildIdxList_concat, dictGet_concat]
    by_cases hx : x = k
    · rw [if_pos hx]
      rintro h
      obtain rfl : l.length = j := by simpa using h
      refine ⟨by simp, ?_⟩
      rw [List.getD_eq_getElem?_getD, List.getElem?_append_right (le_refl _)]
      simpa using hx
    · rw [if_neg hx]
      intro h
      obtain ⟨hj, hget⟩ := ih h
      refine ⟨by simp; omega, ?_⟩
      rw [List.getD_eq_getElem?_getD, List.getElem?_append, if_pos hj,
        ← List.getD_eq_getElem?_getD]
      exact hget

/-! #### `np.delete` as a keep-the-clean-rows filter -/

theorem deleteIdxs_eq_dropFlagged {α : Type} (I : List Nat) :
    ∀ (flags : List Bool) (n : Nat) (l : List α), flags.length = l.length →
      (∀ k, k < l.length → (I.contains (n + k) = true ↔ flags.getD k false = true)) →
      deleteIdxs I n l = dropFlagged flags l := by
  intro flags n l
  induction l generalizing flags n with
  | nil =>
    intro hlen _
    cases flags with
    | nil => rfl
    | cons f fs => simp at hlen
  | cons a as ih =>
    intro hlen h
    cases flags with
    | nil => simp at hlen
    | cons f fs =>
      simp only [List.length_cons, Nat.succ.injEq] at hlen
      have h0 := h 0 (by simp)
      simp only [Nat.add_zero, List.getD_cons_zero] at h0
      have hrest : ∀ k, k < as.length →
          (I.contains (n + 1 + k) = true ↔ fs.getD k false = true) := by
        intro k hk
        have := h (k + 1) (by simp; omega)
        simpa [Nat.add_assoc, Nat.add_comm 1 k] using this
      have htail := ih fs (n + 1) hlen hrest
      rw [deleteIdxs]
      cases hf : f with
      | true =>
        have hc : I.contains n = true := h0.mpr (by rw [hf])
        rw [if_pos hc, htail]
        simp [dropFlagged, hf]
      | false =>
        have hc : I.contains n = false := by
          rcases Bool.eq_false_or_eq_true (I.contains n) with hcf | hct
          · exact absurd (h0.mp hcf) (by rw [hf]; simp)
          · exact hct
        rw [if_neg (by rw [hc]; simp), htail]
        simp [dropFlagged, hf]

theorem any_id_iff (row : List Bool) :
    row.any (fun b => b) = true ↔ ∃ m, m < row.length ∧ row.getD m false = true := by
  rw [List.any_eq_true]
  constructor
  · rintro ⟨b, hb, hbt⟩
    obtain ⟨m, hm, hget⟩ := List.mem_iff_getElem.mp hb
    refine ⟨m, hm, ?_⟩
    rw [List.getD_eq_getElem?_getD, List.getElem?_eq_getElem hm, hget]
    simpa using hbt
  · rintro ⟨m, hm, hget⟩
    refine ⟨row.getD m false, ?_, by simpa using hget⟩
    rw [List.getD_eq_getElem?_getD, List.getElem?_eq_getElem hm]
    simp [List.getElem_mem hm]

/-- Membership of a row index among the first components of the nonzero
pairs says exactly that the row contains a `true` entry. -/
theorem contains_fst_nonzeroPairs_iff (mask : List (List Bool)) (k : Nat)
    (hk : k < mask.length) :
    (((nonzeroPairs 0 mask).map Prod.fst).contains k = true ↔
      (rowFlags mask).getD k false = true) := by
  have hflag : (rowFlags mask).getD k false = (mask.getD k []).any (fun b => b) := by
    rw [rowFlags, List.getD_eq_getElem?_getD, List.getElem?_map,
      List.getElem?_eq_getElem hk]
    simp [List.getD_eq_getElem?_getD, List.getElem?_eq_getElem hk]
  rw [hflag, List.elem_iff, List.mem_map, any_id_iff]
  constructor
  · rintro ⟨p, hp, rfl⟩
    obtain ⟨k', hk', h1, m, hm, hpm, hget⟩ := (mem_nonzeroPairs 0 mask p).mp hp
    have : k' = p.1 := by omega
    subst this
    exact ⟨m, hm, hget⟩
  · rintro ⟨m, hm, hget⟩
    exact ⟨(k, m), (mem_nonzeroPairs 0 mask (k, m)).mpr ⟨k, hk, by omega, m, hm, rfl, hget⟩, rfl⟩

/-! #### Record-iteration lemmas -/

theorem fillLoop_eq_take :
    ∀ (m : Nat) (l : List VRec) (seen : Nat), fillLoop m l seen = l.take (m - seen) := by
  intro m l
  induction l generalizing m with
  | nil => intro seen; simp [fillLoop]
  | cons r rs ih =>
    intro seen
    rw [fillLoop]
    by_cases hs : seen ≥ m
    · rw [if_pos hs]
      have : m - seen = 0 := by omega
      rw [this, List.take_zero]
    · rw [if_neg hs, ih m (seen + 1)]
      have : m - seen = (m - (seen + 1)) + 1 := by omega
      rw [this, List.take_succ_cons]

/-- The emitted stream of `_iterate` with a variant-id set: always the
(slice-mapped) matching records of some consumed prefix, and when that
prefix is proper, the break fired because the quota was already met. -/
theorem iterGo_emit (pre : Bool) (S : List String) :
    ∀ (recs : List VRec) (seen : Nat),
      ∃ t, t ≤ recs.length ∧
        iterGo pre S recs seen =
          ((recs.take t).filter (fun r => decide (r.meta.id ∈ S))).map (sliceChannels pre) ∧
        (t = recs.length ∨
          seen + ((recs.take t).filter (fun r => decide (r.meta.id ∈ S))).length ≥ S.length) := by
  intro recs
  induction recs with
  | nil => intro seen; exact ⟨0, by simp, by simp [iterGo], Or.inl rfl⟩
  | cons r rs ih =>
    intro seen
    rw [iterGo]
    by_cases hmem : r.meta.id ∈ S
    · obtain ⟨t', ht'len, ht'eq, ht'alt⟩ := ih (seen + 1)
      refine ⟨t' + 1, by simp; omega, ?_, ?_⟩
      · rw [if_pos hmem, ht'eq, List.take_succ_cons, List.filter_cons_of_pos (by simpa using hmem)]
        rfl
      · rcases ht'alt with h | h
        · exact Or.inl (by simp [h])
        · right
          rw [List.take_succ_cons, List.filter_cons_of_pos (by simpa using hmem)]
          simp only [List.length_cons]
          omega
    · rw [if_neg hmem]
      by_cases hq : seen ≥ S.length
      · refine ⟨0, by simp, by simp [if_pos hq], Or.inr (by simpa using hq)⟩
      · obtain ⟨t', ht'len, ht'eq, ht'alt⟩ := ih seen
        refine ⟨t' + 1, by simp; omega, ?_, ?_⟩
        · rw [if_neg hq, ht'eq, List.take_succ_cons,
            List.filter_cons_of_neg (by simpa using hmem)]
        · rcases ht'alt with h | h
          · exact Or.inl (by simp [h])
          · right
            rw [List.take_succ_cons, List.filter_cons_of_neg (by simpa using hmem)]
            omega

/-! #### Pointwise access lemmas -/

theorem getD_map_lt {α β : Type} (f : α → β) (l : List α) (i : Nat) (d : β) (a₀ : α)
    (h : i < l.length) : (l.map f).getD i d = f (l.getD i a₀) := by
  rw [List.getD_eq_getElem?_getD, List.getElem?_map, List.getElem?_eq_getElem h,
    List.getD_eq_getElem?_getD, List.getElem?_eq_getElem h]
  rfl

theorem getD_mapI_lt {α β : Type} (f : Nat → α → β) (l : List α) (i : Nat) (d : β) (a₀ : α)
    (h : i < l.length) : (mapI f 0 l).getD i d = f i (l.getD i a₀) := by
  have hg := mapI_get? f 0 l i
  rw [List.get?_eq_getElem?, List.get?_eq_getElem?] at hg
  rw [List.getD_eq_getElem?_getD, hg, List.getD_eq_getElem?_getD,
    List.getElem?_eq_getElem h]
  simp

theorem transpose102_spec (d : List (List (List Nat))) (nS : Nat)
    (hne : d ≠ []) (hd : ∀ row ∈ d, row.length = nS) :
    (transpose102 d).length = nS ∧
      ∀ i, i < nS → (transpose102 d).getD i [] = d.map (fun vrow => vrow.getD i []) := by
  match d, hne with
  | row :: rest, _ =>
    have hrow : row.length = nS := hd row (List.mem_cons_self row rest)
    constructor
    · simp [transpose102, hrow]
    · intro i hi
      rw [transpose102]
      rw [getD_map_lt _ _ i [] 0 (by simpa [hrow] using hi)]
      have : (List.range row.length).getD i 0 = i := by
        rw [List.getD_eq_getElem?_getD, List.getElem?_range (by omega)]
        rfl
      rw [this]

/-- The unphased-heterozygote test of `check_phase`, on 0/1 channel
values, is exactly "the allele channels differ and the phase flag is
false" — for either dtype. -/
theorem unphasedVal_iff (dt : Bool) (c : List Nat)
    (h0 : c.getD 0 0 ≤ 1) (h1 : c.getD 1 0 ≤ 1) (h2 : c.getD 2 0 ≤ 1) :
    (unphasedVal dt c ≠ 0) ↔ (c.getD 0 0 ≠ c.getD 1 0 ∧ c.getD 2 0 = 0) := by
  rw [unphasedVal]
  rcases Nat.le_one_iff_eq_zero_or_eq_one.mp h0 with h0' | h0' <;>
    rcases Nat.le_one_iff_eq_zero_or_eq_one.mp h1 with h1' | h1' <;>
      rcases Nat.le_one_iff_eq_zero_or_eq_one.mp h2 with h2' | h2' <;>
        rw [h0', h1', h2'] <;> cases dt <;> decide

theorem mapI_congr {α β : Type} (f g : Nat → α → β) (h : ∀ i a, f i a = g i a) :
    ∀ (n : Nat) (l : List α), mapI f n l = mapI g n l := by
  intro n l
  induction l generalizing n with
  | nil => rfl
  | cons a as ih => simp only [mapI, h, ih]

theorem mapI_id {α : Type} : ∀ (n : Nat) (l : List α), mapI (fun _ a => a) n l = l := by
  intro n l
  induction l generalizing n with
  | nil => rfl
  | cons a as ih => simp only [mapI, ih]

theorem getD_false_of_all (l : List Bool) (h : ∀ b ∈ l, b = false) (j : Nat) :
    l.getD j false = false := by
  rw [List.getD_eq_getElem?_getD, ← List.get?_eq_getElem?]
  cases hj : l.get? j with
  | none => rfl
  | some b =>
    have hb : b ∈ l := List.get?_mem hj
    simp [h b hb]

theorem getD_le_one (c : List Nat) (h : ∀ v ∈ c, v ≤ 1) (k : Nat) : c.getD k 0 ≤ 1 := by
  rw [List.getD_eq_getElem?_getD, ← List.get?_eq_getElem?]
  cases hk : c.get? k with
  | none => simp
  | some v =>
    have hv : v ∈ c := List.get?_mem hk
    simpa using h v hv

theorem mask_getD (g : List Nat → Bool) (dd : List (List (List Nat))) (i j : Nat)
    (hi : i < dd.length) (hj : j < (dd.getD i []).length) :
    ((dd.map (fun row => row.map g)).getD i []).getD j false = g ((dd.getD i []).getD j []) := by
  rw [getD_map_lt _ _ i [] [] hi, getD_map_lt _ _ j false [] hj]

theorem deleteIdxs_subset {α : Type} (I : List Nat) :
    ∀ (n : Nat) (l : List α) (a : α), a ∈ deleteIdxs I n l → a ∈ l := by
  intro n l
  induction l generalizing n with
  | nil => intro a h; simp [deleteIdxs] at h
  | cons x xs ih =>
    intro a h
    rw [deleteIdxs] at h
    by_cases hc : I.contains n = true
    · rw [if_pos hc] at h
      exact List.mem_cons_of_mem x (ih (n + 1) a h)
    · rw [if_neg hc] at h
      rcases List.mem_cons.mp h with rfl | h'
      · exact List.mem_cons_self a xs
      · exact List.mem_cons_of_mem x (ih (n + 1) a h')

/-! #### `to_MAC` unfolding -/

theorem toMAC_unfold (s : GState) (h : ¬s.freqLabel = .maf) :
    toMAC s =
      { st := { s with
          data := s.data.map (fun row =>
            mapI (fun j c =>
              if (s.variants.map (fun v => decide (v.aaf > 1 / 2))).getD j false then
                mapI (fun k v => if k < 2 then npNot s.dtypeBool v else v) 0 c
              else c) 0 row),
          variants := s.variants.map (fun v =>
            if v.aaf > 1 / 2 then { v with aaf := 1 - v.aaf } else v),
          freqLabel := .maf },
        err := none, diags := [] } := by
  simp only [toMAC]
  rw [if_neg h]

/-! #### Branch-unfolding lemmas for the pipeline stages -/

theorem checkMissing_clean (s : GState) (d : Bool)
    (hp : nonzeroPairs 0 (missingMask s) = []) :
    checkMissing s d =
      { st := s, err := none,
        diags := if d ∧ s.data.length = 0 then [.allSamplesDiscarded] else [] } := by
  simp only [checkMissing, hp]

theorem checkMissing_discard (s : GState) (i0 j0 : Nat) (rest : List (Nat × Nat))
    (hp : nonzeroPairs 0 (missingMask s) = (i0, j0) :: rest) :
    checkMissing s true =
      { st := { s with
          data := deleteIdxs (((i0, j0) :: rest).map Prod.fst) 0 s.data,
          samples := deleteIdxs (((i0, j0) :: rest).map Prod.fst) 0 s.samples,
          sampIdx := none },
        err := none,
        diags := [.ignoringMissing (((i0, j0) :: rest).map Prod.fst).length] ++
          (if (deleteIdxs (((i0, j0) :: rest).map Prod.fst) 0 s.data).length = 0 then
            [Diag.allSamplesDiscarded] else []) } := by
  simp only [checkMissing, hp]
  rfl

theorem checkMissing_raise (s : GState) (i0 j0 : Nat) (rest : List (Nat × Nat))
    (hp : nonzeroPairs 0 (missingMask s) = (i0, j0) :: rest) :
    checkMissing s false =
      { st := s,
        err := some (.missing (s.variants.getD j0 default).id
          (s.variants.getD j0 default).chrom (s.variants.getD j0 default).pos
          (s.samples.getD i0 "")),
        diags := [] } := by
  simp only [checkMissing, hp]
  rfl

theorem checkBiallelic_bool (s : GState) (d : Bool) (h : s.dtypeBool = true) :
    checkBiallelic s d = { st := s, err := none, diags := [.alreadyBiallelic] } := by
  rw [checkBiallelic, if_pos h]

theorem checkBiallelic_clean (s : GState) (d : Bool) (h : s.dtypeBool = false)
    (hp : nonzeroPairs 0 (multiallelicMask s) = []) :
    checkBiallelic s d =
      { st := astypeBool s, err := none,
        diags := if d ∧ dim1 s = 0 then [.allVariantsDiscarded] else [] } := by
  rw [checkBiallelic, if_neg (by rw [h]; exact Bool.false_ne_true)]
  simp only [hp]

theorem checkBiallelic_discard (s : GState) (i0 j0 : Nat) (rest : List (Nat × Nat))
    (h : s.dtypeBool = false)
    (hp : nonzeroPairs 0 (multiallelicMask s) = (i0, j0) :: rest) :
    checkBiallelic s true =
      { st := astypeBool { s with
          data := s.data.map (fun row => deleteIdxs (((i0, j0) :: rest).map Prod.snd) 0 row),
          variants := deleteIdxs (((i0, j0) :: rest).map Prod.snd) 0 s.variants,
          varIdx := none },
        err := none,
        diags := [.ignoringMultiallelic (((i0, j0) :: rest).map Prod.snd).length] ++
          (if dim1 { s with
              data := s.data.map (fun row => deleteIdxs (((i0, j0) :: rest).map Prod.snd) 0 row),
              variants := deleteIdxs (((i0, j0) :: rest).map Prod.snd) 0 s.variants,
              varIdx := none } = 0 then [Diag.allVariantsDiscarded] else []) } := by
  rw [checkBiallelic, if_neg (by rw [h]; exact Bool.false_ne_true)]
  simp only [hp]
  rfl

theorem checkBiallelic_raise (s : GState) (i0 j0 : Nat) (rest : List (Nat × Nat))
    (h : s.dtypeBool = false)
    (hp : nonzeroPairs 0 (multiallelicMask s) = (i0, j0) :: rest) :
    checkBiallelic s false =
      { st := s,
        err := some (.multiallelic (s.variants.getD j0 default).id
          (s.variants.getD j0 default).chrom (s.variants.getD j0 default).pos
          (s.samples.getD i0 "")),
        diags := [] } := by
  rw [checkBiallelic, if_neg (by rw [h]; exact Bool.false_ne_true)]
  simp only [hp]
  rfl

theorem checkPhase_guard (s : GState) (h : s.prephased = true ∨ dim2 s < 3) :
    checkPhase s = { st := s, err := none, diags := [.alreadyPhased] } := by
  rw [checkPhase, if_pos h]

theorem checkPhase_clean (s : GState) (h : ¬(s.prephased = true ∨ dim2 s < 3))
    (hp : nonzeroPairs 0 (unphasedMask s) = []) :
    checkPhase s =
      { st := { s with data := s.data.map (fun row => row.map (fun c => c.take 2)) },
        err := none, diags := [] } := by
  rw [checkPhase, if_neg h]
  simp only [hp]

theorem checkPhase_raise (s : GState) (i0 j0 : Nat) (rest : List (Nat × Nat))
    (h : ¬(s.prephased = true ∨ dim2 s < 3))
    (hp : nonzeroPairs 0 (unphasedMask s) = (i0, j0) :: rest) :
    checkPhase s =
      { st := s,
        err := some (.unphased (s.variants.getD j0 default).id
          (s.variants.getD j0 default).chrom (s.variants.getD j0 default).pos
          (s.samples.getD i0 "")),
        diags := [] } := by
  rw [checkPhase, if_neg h]
  simp only [hp]

theorem binaryData_astypeBool (s : GState) : binaryData (astypeBool s) := by
  intro row hrow c hc v hv
  simp only [astypeBool] at hrow
  obtain ⟨row₀, _, rfl⟩ := List.mem_map.mp hrow
  obtain ⟨c₀, _, rfl⟩ := List.mem_map.mp hc
  obtain ⟨v₀, _, rfl⟩ := List.mem_map.mp hv
  rw [toBool01]
  split <;> simp

theorem dropFlagged_of_all_false {α : Type} :
    ∀ (flags : List Bool) (l : List α), flags.length = l.length →
      (∀ b ∈ flags, b = false) → dropFlagged flags l = l := by
  intro flags
  induction flags with
  | nil =>
    intro l hlen _
    cases l with
    | nil => rfl
    | cons a as => simp at hlen
  | cons f fs ih =>
    intro l hlen hall
    cases l with
    | nil => simp at hlen
    | cons a as =>
      have hf : f = false := hall f (List.mem_cons_self f fs)
      simp only [List.length_cons, Nat.succ.injEq] at hlen
      simp only [dropFlagged, List.zip_cons_cons, List.filterMap_cons, hf]
      rw [show ((if false then none else some a) = some a) from rfl]
      have := ih as hlen (fun b hb => hall b (List.mem_cons_of_mem f hb))
      rw [dropFlagged] at this
      rw [this]

theorem rowFlags_all_false_of_nil (mask : List (List Bool))
    (hp : nonzeroPairs 0 mask = []) : ∀ b ∈ rowFlags mask, b = false := by
  intro b hb
  obtain ⟨row, hrow, rfl⟩ := List.mem_map.mp hb
  by_contra hne
  have hany : row.any (fun x => x) = true := by
    revert hne; cases (row.any fun x => x) <;> simp
  obtain ⟨m, hm, hget⟩ := (any_id_iff row).mp hany
  obtain ⟨i, hi, hroweq⟩ := List.mem_iff_getElem.mp hrow
  have hgd : mask.getD i [] = row := by
    rw [List.getD_eq_getElem?_getD, List.getElem?_eq_getElem hi, hroweq]
    rfl
  have hall := (nonzeroPairs_eq_nil_iff mask).mp hp
  have hfalse := hall i hi m (by rw [hgd]; exact hm)
  rw [hgd] at hfalse
  rw [hfalse] at hget
  exact Bool.false_ne_true hget

/-! #### Subset lemmas -/

theorem filter_dictHas (sl keys : List String) :
    sl.filter (fun x => dictHas (buildIdxList keys) x) =
      sl.filter (fun x => decide (x ∈ keys)) := by
  apply List.filter_congr
  intro x _
  by_cases hx : x ∈ keys
  · rw [(dictHas_buildIdx keys x).mpr hx]
    simp [hx]
  · have h1 : dictHas (buildIdxList keys) x = false := by
      cases hd : dictHas (buildIdxList keys) x
      · rfl
      · exact absurd ((dictHas_buildIdx keys x).mp hd) hx
    simp [h1, hx]

theorem subsetSamples_spec (s g : GState) (sl : List String) (ip : Bool)
    (hidx : s.sampIdx = none ∨ s.sampIdx = some (buildIdxList s.samples)) :
    (subsetSamples s g sl ip).1.samples = sl.filter (fun x => decide (x ∈ s.samples)) ∧
    (subsetSamples s g sl ip).1.data.length =
      (sl.filter (fun x => decide (x ∈ s.samples))).length ∧
    (∀ row ∈ (subsetSamples s g sl ip).1.data,
      ∃ i, i < s.samples.length ∧ row = g.data.getD i []) ∧
    (subsetSamples s g sl ip).1.variants = g.variants ∧
    (subsetSamples s g sl ip).2 =
      (if (sl.filter (fun x => decide (x ∈ s.samples))).length < sl.length then
        [Diag.fewerSamples (sl.length - (sl.filter (fun x => decide (x ∈ s.samples))).length)]
      else []) := by
  have hres : resolveSampIdx s = buildIdxList s.samples := by
    rcases hidx with h | h <;> rw [resolveSampIdx, h]
  have hkept : sl.filter (fun x => dictHas (resolveSampIdx s) x) =
      sl.filter (fun x => decide (x ∈ s.samples)) := by
    rw [hres]; exact filter_dictHas sl s.samples
  refine ⟨?_, ?_, ?_, rfl, ?_⟩
  · simp only [subsetSamples]
    exact hkept
  · simp only [subsetSamples, List.length_map]
    rw [hkept]
  · simp only [subsetSamples]
    intro row hrow
    obtain ⟨i, hi, rfl⟩ := List.mem_map.mp hrow
    obtain ⟨x, hx, rfl⟩ := List.mem_map.mp hi
    have hhas : dictHas (resolveSampIdx s) x = true := List.of_mem_filter hx
    rw [hres] at hhas
    rw [dictHas] at hhas
    obtain ⟨j, hj⟩ := Option.isSome_iff_exists.mp hhas
    obtain ⟨hjlt, _⟩ := dictGet_buildIdx_spec s.samples x j hj
    refine ⟨j, hjlt, ?_⟩
    rw [hres, hj]
    rfl
  · simp only [subsetSamples]
    rw [hkept]

theorem filterMap_dictGet_ids (vs : List Variant) :
    ∀ vl : List String,
      ((vl.filterMap (fun x => dictGet (buildIdxList (vs.map Variant.id)) x)).map
        (fun j => (vs.getD j default).id)) =
        vl.filter (fun x => decide (x ∈ vs.map Variant.id)) ∧
      (vl.filterMap (fun x => dictGet (buildIdxList (vs.map Variant.id)) x)).length =
        (vl.filter (fun x => decide (x ∈ vs.map Variant.id))).length := by
  intro vl
  induction vl with
  | nil => exact ⟨rfl, rfl⟩
  | cons x xs ih =>
    cases hx : dictGet (buildIdxList (vs.map Variant.id)) x with
    | none =>
      have hmem : decide (x ∈ vs.map Variant.id) = false := by
        cases hd : decide (x ∈ vs.map Variant.id)
        · rfl
        · have hin := of_decide_eq_true hd
          have := (dictHas_buildIdx (vs.map Variant.id) x).mpr hin
          rw [dictHas, hx] at this
          simp at this
      rw [List.filterMap_cons_none hx, List.filter_cons_of_neg (by rw [hmem]; simp)]
      exact ih
    | some j =>
      obtain ⟨hjlt, hgetid⟩ := dictGet_buildIdx_spec (vs.map Variant.id) x j hx
      have hjv : j < vs.length := by simpa using hjlt
      have hid : (vs.getD j default).id = x := by
        rw [← getD_map_lt Variant.id vs j "" default hjv]
        exact hgetid
      have hmem : x ∈ vs.map Variant.id := by
        have := (dictHas_buildIdx (vs.map Variant.id) x)
        rw [dictHas, hx] at this
        exact this.mp rfl
      rw [List.filterMap_cons_some hx, List.filter_cons_of_pos (by simpa using hmem)]
      refine ⟨?_, ?_⟩
      · simp only [List.map_cons, hid, ih.1]
      · simp only [List.length_cons, ih.2]

theorem subsetVariants_spec (s g : GState) (vl : List String) (ip : Bool)
    (hidx : s.varIdx = none ∨ s.varIdx = some (buildIdxList (s.variants.map Variant.id))) :
    (subsetVariants s g vl ip).1.variants.map Variant.id =
      vl.filter (fun x => decide (x ∈ s.variants.map Variant.id)) ∧
    (subsetVariants s g vl ip).1.variants.length =
      (vl.filter (fun x => decide (x ∈ s.variants.map Variant.id))).length ∧
    (subsetVariants s g vl ip).1.samples = g.samples ∧
    (subsetVariants s g vl ip).1.data.length = g.data.length ∧
    (∀ row ∈ (subsetVariants s g vl ip).1.data,
      row.length = (subsetVariants s g vl ip).1.variants.length) ∧
    (subsetVariants s g vl ip).2 =
      (if (vl.filter (fun x => decide (x ∈ s.variants.map Variant.id))).length < vl.length then
        [Diag.fewerVariants
          (vl.length - (vl.filter (fun x => decide (x ∈ s.variants.map Variant.id))).length)]
      else []) := by
  have hres : resolveVarIdx s = buildIdxList (s.variants.map Variant.id) := by
    rcases hidx with h | h <;> rw [resolveVarIdx, h]
  have hkey := filterMap_dictGet_ids s.variants vl
  refine ⟨?_, ?_, rfl, ?_, ?_, ?_⟩
  · simp only [subsetVariants, hres, List.map_map]
    exact hkey.1
  · simp only [subsetVariants, hres, List.length_map]
    exact hkey.2
  · simp only [subsetVariants, List.length_map]
  · simp only [subsetVariants]
    intro row hrow
    obtain ⟨row₀, _, rfl⟩ := List.mem_map.mp hrow
    simp [List.length_map]
  · simp only [subsetVariants, hres]
    rw [hkey.2]

theorem getD_mem {α : Type} (l : List α) (i : Nat) (d : α) (h : i < l.length) :
    l.getD i d ∈ l := by
  have h1 : l.getD i d = l[i] := by
    rw [List.getD_eq_getElem?_getD, List.getElem?_eq_getElem h]; rfl
  rw [h1]
  exact List.getElem_mem h

theorem wf_astypeBool (s : GState) (h : wf s) : wf (astypeBool s) := by
  refine ⟨?_, ?_⟩
  · simp only [astypeBool, List.length_map]
    exact h.1
  · simp only [astypeBool]
    intro row hrow
    obtain ⟨row₀, hrow₀, rfl⟩ := List.mem_map.mp hrow
    simp only [List.length_map]
    exact h.2 row₀ hrow₀

/-! #### `read` bounded-mode lemmas -/

theorem take_of_isPrefix {α : Type} {l₁ l₂ : List α} (h : l₁ <+: l₂) (n : Nat)
    (hn : n ≤ l₁.length) : l₁.take n = l₂.take n := by
  obtain ⟨rest, rfl⟩ := h
  rw [List.take_append_of_le_length hn]

/-- The bounded fill of the `_iterate` output with quota `|S|` stores
exactly the first `min |S| (number of matching records)` matching records
(slice-mapped), in source order. -/
theorem fill_iterGo_eq_take (pre : Bool) (S : List String) (recs : List VRec) :
    fillLoop S.length (iterGo pre S recs 0) 0 =
      ((recs.filter (fun r => decide (r.meta.id ∈ S))).take S.length).map
        (sliceChannels pre) := by
  obtain ⟨t, htle, heq, halt⟩ := iterGo_emit pre S recs 0
  rw [fillLoop_eq_take, Nat.sub_zero, heq, ← List.map_take]
  congr 1
  rcases halt with ht | hlen
  · rw [ht, List.take_length]
  · rw [Nat.zero_add] at hlen
    exact take_of_isPrefix (List.IsPrefix.filter _ (List.take_prefix t recs)) S.length hlen

theorem readVCF_some_eq (s : GState) (vs : List String) (S : List String)
    (maxV? : Option Nat) (recs : List VRec) :
    readVCF s vs (some S) maxV? recs =
      ({ s with samples := vs,
                variants := (fillLoop S.length (iterGo s.prephased S recs 0) 0).map VRec.meta,
                data := transpose102
                  ((fillLoop S.length (iterGo s.prephased S recs 0) 0).map VRec.data),
                dtypeBool := false },
       (if S.length > (fillLoop S.length (iterGo s.prephased S recs 0) 0).length then
          [Diag.removingUnneeded
            (S.length - (fillLoop S.length (iterGo s.prephased S recs 0) 0).length)]
        else []) ++
       (if ((fillLoop S.length (iterGo s.prephased S recs 0) 0).map VRec.data).length = 0 ∨
            vs.length = 0 then [Diag.failedToLoad] else [])) := rfl

theorem readVCF_none_eq (s : GState) (vs : List String) (M : Nat) (recs : List VRec) :
    readVCF s vs none (some M) recs =
      ({ s with samples := vs,
                variants := (fillLoop M (recs.map (sliceChannels s.prephased)) 0).map VRec.meta,
                data := transpose102
                  ((fillLoop M (recs.map (sliceChannels s.prephased)) 0).map VRec.data),
                dtypeBool := false },
       (if M > (fillLoop M (recs.map (sliceChannels s.prephased)) 0).length then
          [Diag.removingUnneeded
            (M - (fillLoop M (recs.map (sliceChannels s.prephased)) 0).length)]
        else []) ++
       (if ((fillLoop M (recs.map (sliceChannels s.prephased)) 0).map VRec.data).length = 0 ∨
            vs.length = 0 then [Diag.failedToLoad] else [])) := rfl

/-! ## Claim theorems -/

/-- C10: every variant-metadata row produced by the PVAR reader
(`GenotypesPLINK._variant_arr`) carries an alternate-allele frequency of
exactly one half, regardless of the genotype data; consequently, on any
aaf-labeled state whose variant rows all carry frequency one half (as a
PLINK-trio load produces), `to_MAC` flips no allele channels and changes
no stored frequency — its only effect is relabeling the frequency column
from aaf to maf. -/
theorem C10_pvar_aaf_half_toMAC_only_relabels :
    (∀ rec : PLine, (plinkVariantArr rec).aaf = 1 / 2) ∧
    (∀ s : GState, s.freqLabel = .aaf → (∀ v ∈ s.variants, v.aaf = 1 / 2) →
      toMAC s = { st := { s with freqLabel := .maf }, err := none, diags := [] }) := by
  constructor
  · intro rec; rfl
  · intro s hlab hhalf
    rw [toMAC_unfold s (by rw [hlab]; intro hc; exact FreqLabel.noConfusion hc)]
    have hneed : ∀ j, (s.variants.map (fun v => decide (v.aaf > 1 / 2))).getD j false = false := by
      apply getD_false_of_all
      intro b hb
      obtain ⟨v, hv, rfl⟩ := List.mem_map.mp hb
      simp [hhalf v hv]
    have hdata : s.data.map (fun row =>
        mapI (fun j c =>
          if (s.variants.map (fun v => decide (v.aaf > 1 / 2))).getD j false then
            mapI (fun k v => if k < 2 then npNot s.dtypeBool v else v) 0 c
          else c) 0 row) = s.data := by
      have hrow : ∀ row : List (List Nat),
          mapI (fun j c =>
            if (s.variants.map (fun v => decide (v.aaf > 1 / 2))).getD j false then
              mapI (fun k v => if k < 2 then npNot s.dtypeBool v else v) 0 c
            else c) 0 row = row := by
        intro row
        rw [mapI_congr _ (fun _ c => c) (fun j c => by rw [hneed j]; simp), mapI_id]
      rw [List.map_congr_left (fun row _ => hrow row)]
      exact List.map_id' s.data
    have hvar : s.variants.map (fun v =>
        if v.aaf > 1 / 2 then { v with aaf := 1 - v.aaf } else v) = s.variants := by
      have hpt : ∀ v ∈ s.variants,
          (if v.aaf > 1 / 2 then ({ v with aaf := 1 - v.aaf } : Variant) else v) = v := by
        intro v hv
        rw [if_neg]
        rw [hhalf v hv]
        exact lt_irrefl _
      rw [List.map_congr_left hpt]
      exact List.map_id' s.variants
    rw [hdata, hvar]

/-- Witness for C10 at a concrete PVAR line and a concrete one-sample,
one-variant PLINK-style state. -/
theorem C10_pvar_witness :
    (plinkVariantArr c10Line).aaf = 1 / 2 ∧
    toMAC c10State = { st := { c10State with freqLabel := .maf }, err := none, diags := [] } := by
  refine ⟨C10_pvar_aaf_half_toMAC_only_relabels.1 _, ?_⟩
  exact C10_pvar_aaf_half_toMAC_only_relabels.2 c10State rfl
    (by intro v hv; rw [List.mem_singleton.mp hv]; rfl)

/-- C4: on an aaf-labeled state carrying the post-pipeline boolean tensor,
`to_MAC` flips both allele channels (presence and absence exchanged) for
exactly those variants whose stored frequency exceeds one half, replaces
each such frequency f by 1 - f, leaves the cells and frequencies of all
other variants unchanged, and relabels the column to maf; on a state
already labeled maf it changes nothing and only emits a diagnostic. -/
theorem C4_toMAC_flips_majors_and_relabels :
    (∀ s : GState, s.freqLabel = .aaf → s.dtypeBool = true → wf s →
      (toMAC s).err = none ∧
      (toMAC s).st.freqLabel = .maf ∧
      (toMAC s).st.samples = s.samples ∧
      (toMAC s).st.variants.length = s.variants.length ∧
      (∀ j, j < s.variants.length →
        (toMAC s).st.variants.getD j default =
          (if (s.variants.getD j default).aaf > 1 / 2 then
            { s.variants.getD j default with aaf := 1 - (s.variants.getD j default).aaf }
          else s.variants.getD j default)) ∧
      (toMAC s).st.data.length = s.data.length ∧
      (∀ i j, i < s.data.length → j < (s.data.getD i []).length →
        cellAt (toMAC s).st i j =
          (if (s.variants.getD j default).aaf > 1 / 2 then flipAlleles (cellAt s i j)
           else cellAt s i j))) ∧
    (∀ s : GState, s.freqLabel = .maf →
      toMAC s = { st := s, err := none, diags := [.alreadyMAC] }) := by
  constructor
  · intro s hlab hdt hwf
    rw [toMAC_unfold s (by rw [hlab]; exact fun hc => FreqLabel.noConfusion hc)]
    refine ⟨rfl, rfl, rfl, by simp, ?_, by simp, ?_⟩
    · intro j hj
      exact getD_map_lt _ _ j default default hj
    · intro i j hi hj
      have hrowmem : s.data.getD i [] ∈ s.data := by
        have h1 : s.data.getD i [] = s.data[i] := by
          rw [List.getD_eq_getElem?_getD, List.getElem?_eq_getElem hi]
          rfl
        rw [h1]
        exact List.getElem_mem hi
      have hrowlen : (s.data.getD i []).length = s.variants.length := hwf.2 _ hrowmem
      have hjv : j < s.variants.length := hrowlen ▸ hj
      simp only [cellAt]
      rw [getD_map_lt _ s.data i [] [] hi, getD_mapI_lt _ _ j [] [] hj]
      have hnc : (s.variants.map (fun v => decide (v.aaf > 1 / 2))).getD j false =
          decide ((s.variants.getD j default).aaf > 1 / 2) :=
        getD_map_lt _ _ j false default hjv
      rw [hnc, hdt]
      by_cases hgt : (s.variants.getD j default).aaf > 1 / 2
      · rw [if_pos (by simpa using hgt), if_pos hgt]
        rfl
      · rw [if_neg (by simpa using hgt), if_neg hgt]
  · intro s hlab
    simp only [toMAC]
    rw [if_pos hlab]

/-- Witness for C4 at `c4State`: the major-allele cell is flipped and its
frequency complemented, the minor-allele cell and frequency are untouched,
and the column is relabeled. -/
theorem C4_toMAC_witness :
    (toMAC c4State).err = none ∧
    (toMAC c4State).st.freqLabel = .maf ∧
    (toMAC c4State).st.variants.getD 0 default
      = ({ id := "v1", chrom := "chr1", pos := 100, aaf := 1 / 10 } : Variant) ∧
    cellAt (toMAC c4State).st 0 0 = [0, 0] ∧
    cellAt (toMAC c4State).st 0 1 = [1, 0] := by
  have h := C4_toMAC_flips_majors_and_relabels.1 c4State rfl rfl
    (by refine ⟨rfl, ?_⟩; intro row hrow; rw [List.mem_singleton.mp hrow]; rfl)
  refine ⟨h.1, h.2.1, ?_, ?_, ?_⟩
  · have h5 := h.2.2.2.2.1 0 (by simp [c4State])
    rw [h5, if_pos (show (c4State.variants.getD 0 default).aaf > 1 / 2 by
      norm_num [c4State])]
    simp [c4State]
    norm_num
  · have h7 := h.2.2.2.2.2.2 0 0 (by simp [c4State]) (by simp [c4State])
    rw [h7, if_pos (show (c4State.variants.getD 0 default).aaf > 1 / 2 by
      norm_num [c4State])]
    simp [c4State, flipAlleles, cellAt, mapI, npNot]
  · have h7 := h.2.2.2.2.2.2 0 1 (by simp [c4State]) (by simp [c4State])
    rw [h7, if_neg (show ¬(c4State.variants.getD 1 default).aaf > 1 / 2 by
      norm_num [c4State])]
    simp [c4State, cellAt]

/-- C3: whenever `check_biallelic` returns without raising (default or
discard mode), every element of the resulting tensor is a 0/1 presence
flag and the element type is narrowed to boolean; a second call on the
resulting state leaves the tensor, variant table and sample list unchanged
and emits only the already-biallelic diagnostic. -/
theorem C3_biallelic_narrows_and_second_call_noop :
    ∀ (s : GState) (d d2 : Bool), (s.dtypeBool = true → binaryData s) →
      (checkBiallelic s d).err = none →
      binaryData (checkBiallelic s d).st ∧
      (checkBiallelic s d).st.dtypeBool = true ∧
      checkBiallelic (checkBiallelic s d).st d2 =
        { st := (checkBiallelic s d).st, err := none, diags := [.alreadyBiallelic] } := by
  intro s d d2 hbin herr
  by_cases hdt : s.dtypeBool = true
  · rw [checkBiallelic_bool s d hdt]
    exact ⟨hbin hdt, hdt, checkBiallelic_bool s d2 hdt⟩
  · have hnb : s.dtypeBool = false := by revert hdt; cases s.dtypeBool <;> simp
    cases hp : nonzeroPairs 0 (multiallelicMask s) with
    | nil =>
      rw [checkBiallelic_clean s d hnb hp]
      exact ⟨binaryData_astypeBool s, rfl, checkBiallelic_bool _ d2 rfl⟩
    | cons q rest =>
      obtain ⟨i0, j0⟩ := q
      cases d with
      | false =>
        rw [checkBiallelic_raise s i0 j0 rest hnb hp] at herr
        exact absurd herr (by simp)
      | true =>
        rw [checkBiallelic_discard s i0 j0 rest hnb hp]
        exact ⟨binaryData_astypeBool _, rfl, checkBiallelic_bool _ d2 rfl⟩

/-- Witness for C3 at `c3State` (clean uint8 data, default mode, then a
second call in discard mode). -/
theorem C3_biallelic_witness :
    binaryData (checkBiallelic c3State false).st ∧
    (checkBiallelic c3State false).st.dtypeBool = true ∧
    checkBiallelic (checkBiallelic c3State false).st true =
      { st := (checkBiallelic c3State false).st, err := none,
        diags := [.alreadyBiallelic] } :=
  C3_biallelic_narrows_and_second_call_noop c3State false true
    (by intro h; simp [c3State] at h) (by rfl)

/-- C2: on a non-pre-phased instance with a 3-channel tensor of 0/1
entries, `check_phase` raises exactly when some genotype is heterozygous
(channel 0 differs from channel 1) with a false phase channel, and the
error names the row-major-first offending variant and sample; when it does
not raise, the channel count drops from 3 to 2 with the first two channels
of every cell unchanged; on a pre-phased instance or a 2-channel tensor it
returns with no change to any field, emitting only a diagnostic. -/
theorem C2_checkPhase_spec :
    (∀ s : GState, s.prephased = false → dim2 s = 3 →
      (∀ row ∈ s.data, ∀ c ∈ row, ∀ v ∈ c, v ≤ 1) →
      (((checkPhase s).err.isSome ↔
          ∃ i j, i < s.data.length ∧ j < (s.data.getD i []).length ∧ hetUnphasedAt s i j) ∧
       ((checkPhase s).err = none →
          checkPhase s =
            { st := { s with data := s.data.map (fun row => row.map (fun c => c.take 2)) },
              err := none, diags := [] } ∧ dim2 (checkPhase s).st = 2) ∧
       (∀ e, (checkPhase s).err = some e →
          (checkPhase s).st = s ∧
          ∃ i0 j0, i0 < s.data.length ∧ j0 < (s.data.getD i0 []).length ∧
            hetUnphasedAt s i0 j0 ∧
            (∀ i j, i < s.data.length → j < (s.data.getD i []).length →
              hetUnphasedAt s i j → lexLE (i0, j0) (i, j)) ∧
            e = .unphased (s.variants.getD j0 default).id (s.variants.getD j0 default).chrom
                  (s.variants.getD j0 default).pos (s.samples.getD i0 "")))) ∧
    (∀ s : GState, s.prephased = true ∨ dim2 s = 2 →
      checkPhase s = { st := s, err := none, diags := [.alreadyPhased] }) := by
  constructor
  · intro s hpre hd2 hbin
    have hg : ¬(s.prephased = true ∨ dim2 s < 3) := by
      rw [hpre, hd2]
      simp
    have hmdef : unphasedMask s =
        s.data.map (fun row => row.map (fun c => decide (unphasedVal s.dtypeBool c ≠ 0))) := rfl
    have hmlen : (unphasedMask s).length = s.data.length := by
      rw [hmdef]; simp
    have hrowlen : ∀ i, i < s.data.length →
        ((unphasedMask s).getD i []).length = (s.data.getD i []).length := by
      intro i hi
      rw [hmdef, getD_map_lt _ _ i [] [] hi]
      simp
    have hmask : ∀ i j, i < s.data.length → j < (s.data.getD i []).length →
        (((unphasedMask s).getD i []).getD j false = true ↔ hetUnphasedAt s i j) := by
      intro i j hi hj
      rw [hmdef, mask_getD _ s.data i j hi hj, decide_eq_true_eq]
      have hrowmem : s.data.getD i [] ∈ s.data := by
        have h1 : s.data.getD i [] = s.data[i] := by
          rw [List.getD_eq_getElem?_getD, List.getElem?_eq_getElem hi]; rfl
        rw [h1]; exact List.getElem_mem hi
      have hcellmem : (s.data.getD i []).getD j [] ∈ s.data.getD i [] := by
        have h1 : (s.data.getD i []).getD j [] = (s.data.getD i [])[j] := by
          rw [List.getD_eq_getElem?_getD, List.getElem?_eq_getElem hj]; rfl
        rw [h1]; exact List.getElem_mem hj
      have hb : ∀ v ∈ (s.data.getD i []).getD j [], v ≤ 1 := hbin _ hrowmem _ hcellmem
      exact unphasedVal_iff s.dtypeBool _ (getD_le_one _ hb 0) (getD_le_one _ hb 1)
        (getD_le_one _ hb 2)
    cases hp : nonzeroPairs 0 (unphasedMask s) with
    | nil =>
      have heq := checkPhase_clean s hg hp
      refine ⟨?_, ?_, ?_⟩
      · rw [heq]
        simp only [Option.isSome_none, Bool.false_eq_true, false_iff]
        rintro ⟨i, j, hi, hj, hat⟩
        have hall := (nonzeroPairs_eq_nil_iff _).mp hp
        have hfalse := hall i (by omega) j (by rw [hrowlen i hi]; exact hj)
        have htrue := (hmask i j hi hj).mpr hat
        rw [hfalse] at htrue
        exact Bool.false_ne_true htrue
      · intro _
        refine ⟨heq, ?_⟩
        cases hdata : s.data with
        | nil => rw [dim2, hdata] at hd2; simp at hd2
        | cons r rrest =>
          cases hr : r with
          | nil => rw [dim2, hdata, hr] at hd2; simp at hd2
          | cons c cs =>
            rw [dim2, hdata, hr] at hd2
            simp only [List.headD_cons] at hd2
            rw [heq]
            simp [dim2, hdata, hr, List.length_take, hd2]
      · intro e he
        rw [heq] at he
        simp at he
    | cons q rest =>
      obtain ⟨i0, j0⟩ := q
      have heq := checkPhase_raise s i0 j0 rest hg hp
      have hq0 : (i0, j0) ∈ nonzeroPairs 0 (unphasedMask s) := by
        rw [hp]; exact List.mem_cons_self _ _
      obtain ⟨k, hk, h1, m, hm, hpm, hget⟩ := (mem_nonzeroPairs _ _ _).mp hq0
      simp only at h1 hpm
      have hki : k = i0 := by omega
      rw [hki] at hk hm hget
      rw [← hpm] at hm hget
      rw [hmlen] at hk
      have hi0 : i0 < s.data.length := hk
      have hj0 : j0 < (s.data.getD i0 []).length := by
        rw [hrowlen i0 hi0] at hm; exact hm
      have hat0 : hetUnphasedAt s i0 j0 := (hmask i0 j0 hi0 hj0).mp hget
      refine ⟨?_, ?_, ?_⟩
      · rw [heq]
        simp only [Option.isSome_some, true_iff]
        exact ⟨i0, j0, hi0, hj0, hat0⟩
      · intro hnone
        rw [heq] at hnone
        simp at hnone
      · intro e he
        rw [heq] at he
        simp only [Option.some.injEq] at he
        refine ⟨by rw [heq], i0, j0, hi0, hj0, hat0, ?_, he.symm⟩
        intro i j hi hj hat
        have htrue := (hmask i j hi hj).mpr hat
        have hmem : (i, j) ∈ nonzeroPairs 0 (unphasedMask s) := by
          apply (mem_nonzeroPairs 0 (unphasedMask s) (i, j)).mpr
          exact ⟨i, by omega, by omega, j, by rw [hrowlen i hi]; exact hj, rfl, htrue⟩
        exact nonzeroPairs_head_min 0 _ (i0, j0) rest hp (i, j) hmem
  · intro s hor
    apply checkPhase_guard
    rcases hor with h | h
    · exact Or.inl h
    · right; rw [h]; omega

/-- Witness for C2 at `c2State` (a heterozygous unphased call, so the
check reports an error) and at the pre-phased `c2StateG` (guarded
no-op). -/
theorem C2_checkPhase_witness :
    ((checkPhase c2State).err.isSome ↔
      ∃ i j, i < c2State.data.length ∧ j < (c2State.data.getD i []).length ∧
        hetUnphasedAt c2State i j) ∧
    checkPhase c2StateG = { st := c2StateG, err := none, diags := [.alreadyPhased] } :=
  ⟨(C2_checkPhase_spec.1 c2State rfl rfl (by decide)).1,
   C2_checkPhase_spec.2 c2StateG (Or.inl rfl)⟩

/-- C5: with discard disabled, `check_missing` raises exactly when some
cell carries the missing sentinel (255) in one of its first two channels,
the error naming the variant id, chromosome, position and sample name of
the row-major-first offending pair, and the instance is unchanged; with
discard enabled it removes every sample row containing a missing value,
clears the sample index cache (whenever something was missing), never
raises, and emits the all-samples-discarded diagnostic exactly when no
sample rows remain. -/
theorem C5_checkMissing_spec :
    ∀ s : GState, wf s →
      ((((checkMissing s false).err.isSome ↔
          ∃ i j, i < s.data.length ∧ j < (s.data.getD i []).length ∧ missingAt s i j) ∧
        ((checkMissing s false).st = s) ∧
        (∀ e, (checkMissing s false).err = some e →
          ∃ i0 j0, i0 < s.data.length ∧ j0 < (s.data.getD i0 []).length ∧
            missingAt s i0 j0 ∧
            (∀ i j, i < s.data.length → j < (s.data.getD i []).length →
              missingAt s i j → lexLE (i0, j0) (i, j)) ∧
            e = .missing (s.variants.getD j0 default).id (s.variants.getD j0 default).chrom
              (s.variants.getD j0 default).pos (s.samples.getD i0 ""))) ∧
       ((checkMissing s true).err = none ∧
        (checkMissing s true).st.data = dropFlagged (rowFlags (missingMask s)) s.data ∧
        (checkMissing s true).st.samples = dropFlagged (rowFlags (missingMask s)) s.samples ∧
        ((∃ i j, i < s.data.length ∧ j < (s.data.getD i []).length ∧ missingAt s i j) →
          (checkMissing s true).st.sampIdx = none) ∧
        (Diag.allSamplesDiscarded ∈ (checkMissing s true).diags ↔
          (checkMissing s true).st.data.length = 0))) := by
  intro s hwf
  have hmdef : missingMask s =
      s.data.map (fun row => row.map (fun c => decide (c.getD 0 0 = 255 ∨ c.getD 1 0 = 255))) := rfl
  have hmlen : (missingMask s).length = s.data.length := by rw [hmdef]; simp
  have hflen : (rowFlags (missingMask s)).length = s.data.length := by
    rw [rowFlags, List.length_map]; exact hmlen
  have hrowlen : ∀ i, i < s.data.length →
      ((missingMask s).getD i []).length = (s.data.getD i []).length := by
    intro i hi
    rw [hmdef, getD_map_lt _ _ i [] [] hi]
    simp
  have hmask : ∀ i j, i < s.data.length → j < (s.data.getD i []).length →
      (((missingMask s).getD i []).getD j false = true ↔ missingAt s i j) := by
    intro i j hi hj
    rw [hmdef, mask_getD _ s.data i j hi hj, decide_eq_true_eq]
    exact Iff.rfl
  cases hp : nonzeroPairs 0 (missingMask s) with
  | nil =>
    have heqF := checkMissing_clean s false hp
    have heqT := checkMissing_clean s true hp
    have hnoex : ¬∃ i j, i < s.data.length ∧ j < (s.data.getD i []).length ∧ missingAt s i j := by
      rintro ⟨i, j, hi, hj, hat⟩
      have hall := (nonzeroPairs_eq_nil_iff _).mp hp
      have hfalse := hall i (by omega) j (by rw [hrowlen i hi]; exact hj)
      have htrue := (hmask i j hi hj).mpr hat
      rw [hfalse] at htrue
      exact Bool.false_ne_true htrue
    have hdropD : dropFlagged (rowFlags (missingMask s)) s.data = s.data :=
      dropFlagged_of_all_false _ _ hflen (rowFlags_all_false_of_nil _ hp)
    have hdropS : dropFlagged (rowFlags (missingMask s)) s.samples = s.samples :=
      dropFlagged_of_all_false _ _ (by rw [hflen, hwf.1]) (rowFlags_all_false_of_nil _ hp)
    refine ⟨⟨?_, by rw [heqF], ?_⟩, ?_, ?_, ?_, ?_, ?_⟩
    · rw [heqF]
      simp only [Option.isSome_none, Bool.false_eq_true, false_iff]
      exact hnoex
    · intro e he
      rw [heqF] at he
      simp at he
    · rw [heqT]
    · rw [heqT, hdropD]
    · rw [heqT, hdropS]
    · intro hex
      exact absurd hex hnoex
    · rw [heqT]
      simp only [true_and]
      constructor
      · intro hmem
        by_cases hz : s.data.length = 0
        · exact hz
        · rw [if_neg (by simp [hz])] at hmem
          simp at hmem
      · intro hz
        rw [if_pos (by simp [hz])]
        exact List.mem_singleton.mpr rfl
  | cons q rest =>
    obtain ⟨i0, j0⟩ := q
    have heqF := checkMissing_raise s i0 j0 rest hp
    have heqT := checkMissing_discard s i0 j0 rest hp
    have hq0 : (i0, j0) ∈ nonzeroPairs 0 (missingMask s) := by
      rw [hp]; exact List.mem_cons_self _ _
    obtain ⟨k, hk, h1, m, hm, hpm, hget⟩ := (mem_nonzeroPairs _ _ _).mp hq0
    simp only at h1 hpm
    have hki : k = i0 := by omega
    rw [hki] at hk hm hget
    rw [← hpm] at hm hget
    rw [hmlen] at hk
    have hi0 : i0 < s.data.length := hk
    have hj0 : j0 < (s.data.getD i0 []).length := by
      rw [hrowlen i0 hi0] at hm; exact hm
    have hat0 : missingAt s i0 j0 := (hmask i0 j0 hi0 hj0).mp hget
    refine ⟨⟨?_, by rw [heqF], ?_⟩, ?_, ?_, ?_, ?_, ?_⟩
    · rw [heqF]
      simp only [Option.isSome_some, true_iff]
      exact ⟨i0, j0, hi0, hj0, hat0⟩
    · intro e he
      rw [heqF] at he
      simp only [Option.some.injEq] at he
      refine ⟨i0, j0, hi0, hj0, hat0, ?_, he.symm⟩
      intro i j hi hj hat
      have htrue := (hmask i j hi hj).mpr hat
      have hmem : (i, j) ∈ nonzeroPairs 0 (missingMask s) := by
        apply (mem_nonzeroPairs 0 (missingMask s) (i, j)).mpr
        exact ⟨i, by omega, by omega, j, by rw [hrowlen i hi]; exact hj, rfl, htrue⟩
      exact nonzeroPairs_head_min 0 _ (i0, j0) rest hp (i, j) hmem
    · rw [heqT]
    · rw [heqT]
      apply deleteIdxs_eq_dropFlagged
      · exact hflen.trans rfl
      · intro k' hk'
        rw [Nat.zero_add]
        rw [← hp]
        exact contains_fst_nonzeroPairs_iff (missingMask s) k' (by omega)
    · rw [heqT]
      apply deleteIdxs_eq_dropFlagged
      · rw [hflen, hwf.1]
      · intro k' hk'
        rw [Nat.zero_add]
        rw [← hp]
        apply contains_fst_nonzeroPairs_iff (missingMask s) k'
        rw [hmlen, hwf.1]
        exact hk'
    · intro _
      rw [heqT]
    · rw [heqT]
      simp only [List.mem_append, List.mem_singleton]
      constructor
      · rintro (hL | hR)
        · exact absurd hL (by simp)
        · by_cases hz : (deleteIdxs (((i0, j0) :: rest).map Prod.fst) 0 s.data).length = 0
          · exact hz
          · rw [if_neg hz] at hR
            simp at hR
      · intro hz
        right
        rw [if_pos hz]
        exact List.mem_singleton.mpr rfl

/-- Witness for C5 at `c5State`, whose first sample has a missing call:
default mode reports an error, discard mode keeps exactly the clean
sample rows. -/
theorem C5_checkMissing_witness :
    ((checkMissing c5State false).err.isSome ↔
      ∃ i j, i < c5State.data.length ∧ j < (c5State.data.getD i []).length ∧
        missingAt c5State i j) ∧
    (checkMissing c5State true).st.samples =
      dropFlagged (rowFlags (missingMask c5State)) c5State.samples :=
  ⟨(C5_checkMissing_spec c5State ⟨rfl, by decide⟩).1.1,
   (C5_checkMissing_spec c5State ⟨rfl, by decide⟩).2.2.2.1⟩

/-- C9: `subset` keeps exactly the requested identifiers that are present
in the data, in exactly the requested order, on both the sample and the
variant axis; the resulting row count equals the number of present
requested samples (the full list length when every one is present), every
row's column count equals the number of present requested variants, and
absent identifiers produce only the count-based shortfall diagnostics (the
embedding has no failure channel: the dict lookups are guarded by the
membership filters). -/
theorem C9_subset_keeps_requested_order :
    ∀ (s : GState) (sl vl : List String) (ip : Bool), cachesOk s →
      (subset s (some sl) (some vl) ip).1.samples =
        sl.filter (fun x => decide (x ∈ s.samples)) ∧
      (subset s (some sl) (some vl) ip).1.data.length =
        (sl.filter (fun x => decide (x ∈ s.samples))).length ∧
      (subset s (some sl) (some vl) ip).1.variants.map Variant.id =
        vl.filter (fun x => decide (x ∈ s.variants.map Variant.id)) ∧
      (∀ row ∈ (subset s (some sl) (some vl) ip).1.data,
        row.length = (vl.filter (fun x => decide (x ∈ s.variants.map Variant.id))).length) ∧
      ((∀ x ∈ sl, x ∈ s.samples) → (subset s (some sl) (some vl) ip).1.samples = sl) ∧
      ((∀ x ∈ vl, x ∈ s.variants.map Variant.id) →
        (subset s (some sl) (some vl) ip).1.variants.length = vl.length) ∧
      (subset s (some sl) (some vl) ip).2 =
        (if (sl.filter (fun x => decide (x ∈ s.samples))).length < sl.length then
          [Diag.fewerSamples
            (sl.length - (sl.filter (fun x => decide (x ∈ s.samples))).length)]
         else []) ++
        (if (vl.filter (fun x => decide (x ∈ s.variants.map Variant.id))).length < vl.length then
          [Diag.fewerVariants
            (vl.length - (vl.filter (fun x => decide (x ∈ s.variants.map Variant.id))).length)]
         else []) := by
  intro s sl vl ip hc
  have hsub : subset s (some sl) (some vl) ip =
      ((subsetVariants s
          (subsetSamples s
            (if ip then s else { s with prephased := false, sampIdx := none, varIdx := none })
            sl ip).1 vl ip).1,
       (subsetSamples s
          (if ip then s else { s with prephased := false, sampIdx := none, varIdx := none })
          sl ip).2 ++
       (subsetVariants s
          (subsetSamples s
            (if ip then s else { s with prephased := false, sampIdx := none, varIdx := none })
            sl ip).1 vl ip).2) := rfl
  set gts0 : GState :=
    (if ip then s else { s with prephased := false, sampIdx := none, varIdx := none }) with hg0
  have hS := subsetSamples_spec s gts0 sl ip hc.1
  have hV := subsetVariants_spec s (subsetSamples s gts0 sl ip).1 vl ip hc.2
  rw [hsub]
  refine ⟨?_, ?_, hV.1, ?_, ?_, ?_, ?_⟩
  · rw [hV.2.2.1, hS.1]
  · rw [hV.2.2.2.1, hS.2.1]
  · intro row hrow
    rw [hV.2.2.2.2.1 row hrow, hV.2.1]
  · intro hall
    rw [hV.2.2.1, hS.1]
    apply List.filter_eq_self.mpr
    intro x hx
    exact decide_eq_true (hall x hx)
  · intro hall
    rw [hV.2.1]
    have : vl.filter (fun x => decide (x ∈ s.variants.map Variant.id)) = vl :=
      List.filter_eq_self.mpr (fun x hx => decide_eq_true (hall x hx))
    rw [this]
  · rw [hS.2.2.2.2, hV.2.2.2.2.2]

/-- Witness for C9 at a concrete state: requesting samples c, x, a (x
absent) keeps c then a with a count diagnostic; requesting variant v2
keeps it alone. -/
theorem C9_subset_witness :
    (subset c9State (some ["c", "x", "a"]) (some ["v2"]) false).1.samples = ["c", "a"] ∧
    (subset c9State (some ["c", "x", "a"]) (some ["v2"]) false).1.data.length = 2 ∧
    (subset c9State (some ["c", "x", "a"]) (some ["v2"]) false).1.variants.map Variant.id
      = ["v2"] ∧
    (subset c9State (some ["c", "x", "a"]) (some ["v2"]) false).2 = [Diag.fewerSamples 1] := by
  have h := C9_subset_keeps_requested_order c9State ["c", "x", "a"] ["v2"] false
    ⟨Or.inl rfl, Or.inl rfl⟩
  refine ⟨?_, ?_, ?_, ?_⟩
  · rw [h.1]; decide
  · rw [h.2.1]; decide
  · rw [h.2.2.1]; decide
  · rw [h.2.2.2.2.2.2]; decide

/-- C6: every validation stage and every subset call keeps the instance
internally consistent — the tensor's dimension-0 length equals the number
of sample identifiers and every row's dimension-1 length equals the
number of variant-metadata rows — and a stage that raises leaves the
state exactly as it was before the call. -/
theorem C6_stages_preserve_alignment :
    ∀ (s : GState) (d : Bool) (sl vl : Option (List String)) (ip : Bool),
      wf s → cachesOk s →
      (wf (checkMissing s d).st ∧ ((checkMissing s d).err.isSome → (checkMissing s d).st = s)) ∧
      (wf (checkBiallelic s d).st ∧
        ((checkBiallelic s d).err.isSome → (checkBiallelic s d).st = s)) ∧
      (wf (checkPhase s).st ∧ ((checkPhase s).err.isSome → (checkPhase s).st = s)) ∧
      (wf (toMAC s).st ∧ (toMAC s).err = none) ∧
      wf (subset s sl vl ip).1 := by
  intro s d sl vl ip hwf hc
  refine ⟨?_, ?_, ?_, ?_, ?_⟩
  · -- check_missing
    cases hp : nonzeroPairs 0 (missingMask s) with
    | nil =>
      rw [checkMissing_clean s d hp]
      exact ⟨hwf, fun _ => rfl⟩
    | cons q rest =>
      obtain ⟨i0, j0⟩ := q
      cases d with
      | false =>
        rw [checkMissing_raise s i0 j0 rest hp]
        exact ⟨hwf, fun _ => rfl⟩
      | true =>
        rw [checkMissing_discard s i0 j0 rest hp]
        refine ⟨⟨?_, ?_⟩, fun hco => by simp at hco⟩
        · exact deleteIdxs_length_eq _ 0 s.data s.samples hwf.1
        · intro row hrow
          exact hwf.2 row (deleteIdxs_subset _ 0 s.data row hrow)
  · -- check_biallelic
    by_cases hdt : s.dtypeBool = true
    · rw [checkBiallelic_bool s d hdt]
      exact ⟨hwf, fun _ => rfl⟩
    · have hnb : s.dtypeBool = false := by revert hdt; cases s.dtypeBool <;> simp
      cases hp : nonzeroPairs 0 (multiallelicMask s) with
      | nil =>
        rw [checkBiallelic_clean s d hnb hp]
        exact ⟨wf_astypeBool s hwf, fun hco => by simp at hco⟩
      | cons q rest =>
        obtain ⟨i0, j0⟩ := q
        cases d with
        | false =>
          rw [checkBiallelic_raise s i0 j0 rest hnb hp]
          exact ⟨hwf, fun _ => rfl⟩
        | true =>
          rw [checkBiallelic_discard s i0 j0 rest hnb hp]
          refine ⟨wf_astypeBool _ ⟨?_, ?_⟩, fun hco => by simp at hco⟩
          · simp only [List.length_map]
            exact hwf.1
          · intro row hrow
            obtain ⟨row₀, hrow₀, rfl⟩ := List.mem_map.mp hrow
            exact deleteIdxs_length_eq _ 0 row₀ s.variants (hwf.2 row₀ hrow₀)
  · -- check_phase
    by_cases hg : (s.prephased = true ∨ dim2 s < 3)
    · rw [checkPhase_guard s hg]
      exact ⟨hwf, fun _ => rfl⟩
    · cases hp : nonzeroPairs 0 (unphasedMask s) with
      | nil =>
        rw [checkPhase_clean s hg hp]
        refine ⟨⟨?_, ?_⟩, fun hco => by simp at hco⟩
        · simp only [List.length_map]
          exact hwf.1
        · intro row hrow
          obtain ⟨row₀, hrow₀, rfl⟩ := List.mem_map.mp hrow
          simp only [List.length_map]
          exact hwf.2 row₀ hrow₀
      | cons q rest =>
        obtain ⟨i0, j0⟩ := q
        rw [checkPhase_raise s i0 j0 rest hg hp]
        exact ⟨hwf, fun _ => rfl⟩
  · -- to_MAC
    by_cases hml : s.freqLabel = .maf
    · rw [toMAC, if_pos hml]
      exact ⟨hwf, rfl⟩
    · rw [toMAC_unfold s hml]
      refine ⟨⟨?_, ?_⟩, rfl⟩
      · simp only [List.length_map]
        exact hwf.1
      · intro row hrow
        obtain ⟨row₀, hrow₀, rfl⟩ := List.mem_map.mp hrow
        rw [mapI_length, List.length_map]
        exact hwf.2 row₀ hrow₀
  · -- subset
    set gts0 : GState :=
      (if ip then s else { s with prephased := false, sampIdx := none, varIdx := none })
      with hg0
    have hg0data : gts0.data = s.data := by rw [hg0]; cases ip <;> rfl
    have hg0samp : gts0.samples = s.samples := by rw [hg0]; cases ip <;> rfl
    have hg0var : gts0.variants = s.variants := by rw [hg0]; cases ip <;> rfl
    have hwf0 : wf gts0 := by
      refine ⟨?_, ?_⟩
      · rw [hg0data, hg0samp]; exact hwf.1
      · rw [hg0data, hg0var]; exact hwf.2
    cases sl with
    | none =>
      cases vl with
      | none => exact hwf0
      | some vll =>
        have hV := subsetVariants_spec s gts0 vll ip hc.2
        have hsub : subset s none (some vll) ip =
            ((subsetVariants s gts0 vll ip).1,
             [] ++ (subsetVariants s gts0 vll ip).2) := rfl
        rw [hsub]
        refine ⟨?_, hV.2.2.2.2.1⟩
        rw [hV.2.2.2.1, hV.2.2.1, hg0data, hg0samp]
        exact hwf.1
    | some sll =>
      have hS := subsetSamples_spec s gts0 sll ip hc.1
      have hwf1 : wf (subsetSamples s gts0 sll ip).1 := by
        refine ⟨?_, ?_⟩
        · rw [hS.2.1, hS.1]
        · intro row hrow
          obtain ⟨i, hi, rfl⟩ := hS.2.2.1 row hrow
          rw [hg0data, hS.2.2.2.1, hg0var]
          exact hwf.2 _ (getD_mem s.data i [] (by rw [hwf.1]; exact hi))
      cases vl with
      | none => exact hwf1
      | some vll =>
        have hV := subsetVariants_spec s (subsetSamples s gts0 sll ip).1 vll ip hc.2
        have hsub : subset s (some sll) (some vll) ip =
            ((subsetVariants s (subsetSamples s gts0 sll ip).1 vll ip).1,
             (subsetSamples s gts0 sll ip).2 ++
               (subsetVariants s (subsetSamples s gts0 sll ip).1 vll ip).2) := rfl
        rw [hsub]
        refine ⟨?_, hV.2.2.2.2.1⟩
        rw [hV.2.2.2.1, hV.2.2.1]
        exact hwf1.1

/-- Witness for C6 at `c5State` (a state carrying a missing call): the
discard-mode missingness stage and a sample subset both leave the axes
aligned. -/
theorem C6_alignment_witness :
    wf (checkMissing c5State true).st ∧ wf (subset c5State (some ["s2"]) none false).1 := by
  have h := C6_stages_preserve_alignment c5State true (some ["s2"]) none false
    ⟨rfl, by decide⟩ ⟨Or.inl rfl, Or.inl rfl⟩
  exact ⟨h.1.1, h.2.2.2.2⟩

/-- C8: in bounded mode (max_variants supplied, or derived as the size of
the variant-identifier set), `read` stores exactly the first
`min max_variants (number of matching records)` matching records in
source order: the variant table is their metadata, and every sample row
of the (transposed) tensor lists their channel-sliced genotype rows.  A
maximum larger than the true count truncates to the true count; a smaller
one retains only the first `max` matching records. -/
theorem C8_read_bounded_stores_min :
    ∀ (s : GState) (vs : List String) (S? : Option (List String)) (maxV? : Option Nat)
      (recs : List VRec) (M : Nat),
      (match S? with | some S => some S.length | none => maxV?) = some M →
      (∀ r ∈ recs, r.data.length = vs.length) →
      (readVCF s vs S? maxV? recs).1.variants =
        ((matchingRecs S? recs).take (min M (matchingRecs S? recs).length)).map VRec.meta ∧
      (readVCF s vs S? maxV? recs).1.variants.length = min M (matchingRecs S? recs).length ∧
      (readVCF s vs S? maxV? recs).1.samples = vs ∧
      (0 < min M (matchingRecs S? recs).length →
        (readVCF s vs S? maxV? recs).1.data.length = vs.length ∧
        ∀ i, i < vs.length →
          (readVCF s vs S? maxV? recs).1.data.getD i [] =
            (((matchingRecs S? recs).take (min M (matchingRecs S? recs).length)).map
              (sliceChannels s.prephased)).map (fun r => r.data.getD i [])) := by
  intro s vs S? maxV? recs M heff hlen
  cases S? with
  | some S =>
    have hM : M = S.length := by
      simp only [Option.some.injEq] at heff
      omega
    subst hM
    have hmatch : matchingRecs (some S) recs =
        recs.filter (fun r => decide (r.meta.id ∈ S)) := rfl
    set matching := recs.filter (fun r => decide (r.meta.id ∈ S)) with hmdef
    set m := min S.length matching.length with hm
    have htake : matching.take S.length = matching.take m := by
      apply (List.take_eq_take).mpr
      omega
    have hfill : fillLoop S.length (iterGo s.prephased S recs 0) 0 =
        (matching.take m).map (sliceChannels s.prephased) := by
      rw [fill_iterGo_eq_take, ← hmdef, htake]
    have hmeta : ((matching.take m).map (sliceChannels s.prephased)).map VRec.meta =
        (matching.take m).map VRec.meta := by
      rw [List.map_map]
      exact List.map_congr_left (fun r _ => rfl)
    rw [readVCF_some_eq, hmatch]
    refine ⟨?_, ?_, rfl, ?_⟩
    · simp only [hfill]
      exact hmeta
    · simp only [hfill, hmeta, List.length_map, List.length_take]
      omega
    · intro hmpos
      have hd : ∀ row ∈ ((matching.take m).map (sliceChannels s.prephased)).map VRec.data,
          row.length = vs.length := by
        intro row hrow
        obtain ⟨r₀, hr₀, rfl⟩ := List.mem_map.mp hrow
        obtain ⟨r₁, hr₁, rfl⟩ := List.mem_map.mp hr₀
        have hr₁rec : r₁ ∈ recs :=
          List.mem_of_mem_filter (List.take_subset m matching hr₁)
        simp only [sliceChannels, List.length_map]
        exact hlen r₁ hr₁rec
      have hne : ((matching.take m).map (sliceChannels s.prephased)).map VRec.data ≠ [] := by
        intro hcon
        have hlen0 : (matching.take m).length = 0 := by
          simpa using congrArg List.length hcon
        rw [List.length_take] at hlen0
        omega
      obtain ⟨hlen2, hrows⟩ :=
        transpose102_spec _ vs.length hne hd
      simp only [hfill]
      refine ⟨hlen2, ?_⟩
      intro i hi
      rw [hrows i hi, List.map_map]
      rfl
  | none =>
    cases maxV? with
    | none => simp at heff
    | some M' =>
      have hM : M' = M := by simpa using heff
      subst hM
      have hmatch : matchingRecs none recs = recs := rfl
      set m := min M' recs.length with hm
      have htake : recs.take M' = recs.take m := by
        apply (List.take_eq_take).mpr
        omega
      have hfill : fillLoop M' (recs.map (sliceChannels s.prephased)) 0 =
          (recs.take m).map (sliceChannels s.prephased) := by
        rw [fillLoop_eq_take, Nat.sub_zero, ← List.map_take, htake]
      have hmeta : ((recs.take m).map (sliceChannels s.prephased)).map VRec.meta =
          (recs.take m).map VRec.meta := by
        rw [List.map_map]
        exact List.map_congr_left (fun r _ => rfl)
      rw [readVCF_none_eq, hmatch]
      refine ⟨?_, ?_, rfl, ?_⟩
      · simp only [hfill]
        exact hmeta
      · simp only [hfill, hmeta, List.length_map, List.length_take]
        omega
      · intro hmpos
        have hd : ∀ row ∈ ((recs.take m).map (sliceChannels s.prephased)).map VRec.data,
            row.length = vs.length := by
          intro row hrow
          obtain ⟨r₀, hr₀, rfl⟩ := List.mem_map.mp hrow
          obtain ⟨r₁, hr₁, rfl⟩ := List.mem_map.mp hr₀
          simp only [sliceChannels, List.length_map]
          exact hlen r₁ (List.take_subset m recs hr₁)
        have hne : ((recs.take m).map (sliceChannels s.prephased)).map VRec.data ≠ [] := by
          intro hcon
          have hlen0 : (recs.take m).length = 0 := by
            simpa using congrArg List.length hcon
          rw [List.length_take] at hlen0
          omega
        obtain ⟨hlen2, hrows⟩ := transpose102_spec _ vs.length hne hd
        simp only [hfill]
        refine ⟨hlen2, ?_⟩
        intro i hi
        rw [hrows i hi, List.map_map]
        rfl

/-- Witness for C8: a three-record source filtered to the two identifiers
v1 and v3, read with one sample; exactly those two records are stored, in
source order. -/
theorem C8_read_witness :
    (readVCF initState ["s1"] (some ["v1", "v3"]) none c8Recs).1.variants.map Variant.id
      = ["v1", "v3"] ∧
    (readVCF initState ["s1"] (some ["v1", "v3"]) none c8Recs).1.variants.length = 2 ∧
    (readVCF initState ["s1"] (some ["v1", "v3"]) none c8Recs).1.data.getD 0 []
      = [[0, 1, 1], [1, 1, 1]] := by
  have h := C8_read_bounded_stores_min initState ["s1"] (some ["v1", "v3"]) none c8Recs 2
    rfl (by decide)
  refine ⟨?_, ?_, ?_⟩
  · rw [h.1]; decide
  · rw [h.2.1]; decide
  · rw [(h.2.2.2 (by decide)).2 0 (by decide)]; decide

/-- C1: evaluation of the embedded `Genotypes.load` pipeline at `c1Recs`
(a clean source whose variant has alternate-allele frequency 9/10): the
load succeeds, yet the frequency column is still labeled aaf and the
stored frequency 9/10 exceeds one half — the `to_MAC()` call in `load` is
commented out (source line 106), although the docstring promises the MAC
matrix, so the fourth pipeline stage never runs. -/
theorem C1_load_skips_toMAC :
    (load ["s1"] none c1Recs).err = none ∧
    (load ["s1"] none c1Recs).st.freqLabel = .aaf ∧
    ((load ["s1"] none c1Recs).st.variants.getD 0 default).aaf = 9 / 10 ∧
    ((load ["s1"] none c1Recs).st.variants.getD 0 default).aaf > 1 / 2 := by
  refine ⟨rfl, rfl, rfl, ?_⟩
  have h : ((load ["s1"] none c1Recs).st.variants.getD 0 default).aaf = 9 / 10 := rfl
  rw [h]
  norm_num

/-- C7: evaluation of the embedded `GenotypesPLINK._iterate_variants` at
`c7Lines` with the singleton identifier set v1: the single requested
record is emitted from the first line, but the generator still consumes
all three lines of the file — the early-exit guard compares against a
`num_seen` counter that the source never increments, so iteration never
terminates early for a nonempty identifier set. -/
theorem C7_pvar_iterate_never_exits_early :
    (iterateVariantsPVAR (some ["v1"]) none c7Lines).1 =
      [(0, plinkVariantArr { chrom := "chr1", pos := 1, id := "v1" })] ∧
    (iterateVariantsPVAR (some ["v1"]) none c7Lines).2 = 3 ∧
    c7Lines.length = 3 :=
  ⟨rfl, rfl, rfl⟩

end Geno
